import Mathlib

/-!
Verification of the type-inference core of the JS2TS repository.

The development shallowly embeds the two core source modules:

* `src/inference/types.ts` — the type model: `InferredType` values with
  confidence scores, the `mergeTypes` combinator, and structural interface
  hashing (`hashInterfaceDefinition`).
* the `TypeInferrer` class — expression/object/function/parameter type
  inference over Babel AST nodes.

Modelling conventions:

* JavaScript numbers used as confidence scores are modelled as `Rat`
  (exact rational arithmetic; the scores involved are small decimal
  constants combined by averaging, scaling and `min`).
* JavaScript strings are Lean `String`s; `String.prototype.split`,
  `trim` and first-occurrence `replace` are modelled by structurally
  recursive functions over the underlying character lists
  (`jsSplit`, `jsTrim`, `replaceFirst`).
* `charCodeAt` is modelled as the character's code point (the two agree on
  the Basic Multilingual Plane, and on every string the repository hashes).
* JavaScript 32-bit signed integer coercion (`|`, `&`, `<<`) is modelled by
  `toInt32`.
* `Map` objects are modelled as association lists (`List (String × _)`);
  `Map.prototype.get` is `List.lookup`, `has` is an existence test and
  `size` is the list length.
* The inference methods receive a mutable `TypeContext`; the embedding
  threads the context explicitly, so every method returns the (possibly
  updated) context next to its result.
-/

/-! ## The type model (`src/inference/types.ts`) -/

inductive TypeKind : Type where
  | primitive : TypeKind
  | object : TypeKind
  | array : TypeKind
  | function : TypeKind
  | union : TypeKind
  | unknown : TypeKind
deriving DecidableEq, Repr

/-- `InferredType`: kind, textual descriptor, confidence score, and the
optional interface-promotion data.  The optional fields `needsInterface?`
and `interfaceName?` default to `false` / absent. -/
structure InferredType : Type where
  kind : TypeKind
  value : String
  confidence : Rat
  needsInterface : Bool := false
  interfaceName : Option String := none
deriving DecidableEq, Repr

structure PropertyDefinition : Type where
  name : String
  type : String
  optional : Bool
  readonly : Bool
deriving DecidableEq, Repr

structure InterfaceDefinition : Type where
  name : String
  properties : List PropertyDefinition
  usageCount : Nat
  hash : String
deriving DecidableEq, Repr

/-- `TypeContext`: scope map, interface registry and the opaque import
list (never inspected by the inference core). -/
structure TypeContext : Type where
  scope : List (String × InferredType)
  interfaces : List (String × InterfaceDefinition)
  imports : List Unit
deriving DecidableEq, Repr

def createTypeContext : TypeContext :=
  { scope := [], interfaces := [], imports := [] }

def createPrimitiveType (value : String) (confidence : Rat := 1.0) : InferredType :=
  { kind := .primitive, value := value, confidence := confidence }

def createArrayType (elementType : String) (confidence : Rat := 1.0) : InferredType :=
  { kind := .array, value := elementType ++ "[]", confidence := confidence }

def createObjectType (value : String) (confidence : Rat := 1.0)
    (needsInterface : Bool := false) (interfaceName : Option String := none) : InferredType :=
  { kind := .object, value := value, confidence := confidence,
    needsInterface := needsInterface, interfaceName := interfaceName }

def createFunctionType (value : String) (confidence : Rat := 1.0) : InferredType :=
  { kind := .function, value := value, confidence := confidence }

def createUnionType (types : List String) (confidence : Rat := 1.0) : InferredType :=
  { kind := .union, value := " | ".intercalate types, confidence := confidence }

def createUnknownType (confidence : Rat := 0.0) : InferredType :=
  { kind := .unknown, value := "unknown", confidence := confidence }

/-- Structural equality on `(kind, value)` only (confidence ignored). -/
def areTypesEqual (type1 type2 : InferredType) : Bool :=
  type1.kind == type2.kind && type1.value == type2.value

/-! ### String helpers modelling the JavaScript string primitives -/

/-- If `l` starts with the pattern, return the remainder. -/
def stripPrefixChars : List Char → List Char → Option (List Char)
  | l, [] => some l
  | [], _ :: _ => none
  | c :: l, p :: ps => if c = p then stripPrefixChars l ps else none

/-- Worker for `jsSplit`; the fuel is an upper bound on the number of
characters still to be scanned (each step consumes at least one character
because the separator is nonempty in every use below). -/
def splitCharsAux (sep : List Char) : Nat → List Char → List Char → List (List Char)
  | _, [], cur => [cur.reverse]
  | 0, rest, cur => [cur.reverse ++ rest]
  | fuel + 1, c :: rest, cur =>
    match stripPrefixChars (c :: rest) sep with
    | some rest2 => cur.reverse :: splitCharsAux sep fuel rest2 []
    | none => splitCharsAux sep fuel rest (c :: cur)

/-- `s.split(sep)` for a nonempty separator string. -/
def jsSplit (s sep : String) : List String :=
  (splitCharsAux sep.data s.data.length s.data []).map String.mk

/-- `s.trim()`. -/
def jsTrim (s : String) : String :=
  String.mk (((s.data.dropWhile Char.isWhitespace).reverse.dropWhile Char.isWhitespace).reverse)

/-- `s.replace(pat, rep)` with a plain-string pattern: replaces only the
first occurrence (used by the engine to strip one trailing `[]`). -/
def replaceFirst (s pat rep : String) : String :=
  match jsSplit s pat with
  | [] => s
  | [_] => s
  | first :: second :: rest => first ++ rep ++ pat.intercalate (second :: rest)

/-- Insertion into the `Set<string>` of union members, preserving first
insertion order (JavaScript `Set` iteration order). -/
def addUnique (l : List String) (s : String) : List String :=
  if s ∈ l then l else l ++ [s]

/-- `mergeTypes`: equal types keep the higher-confidence operand (first on a
tie); `unknown` is an identity; otherwise both operands' member descriptors
are flattened (splitting `union` operands on `" | "`), deduplicated, and
rebuilt as a `union` whose confidence is the mean of the two inputs. -/
def mergeTypes (type1 type2 : InferredType) : InferredType :=
  if areTypesEqual type1 type2 then
    if type1.confidence ≥ type2.confidence then type1 else type2
  else if type1.kind == .unknown then type2
  else if type2.kind == .unknown then type1
  else
    let u0 : List String := []
    let u1 :=
      if type1.kind == .union then
        (jsSplit type1.value " | ").foldl (fun acc t => addUnique acc (jsTrim t)) u0
      else
        addUnique u0 type1.value
    let u2 :=
      if type2.kind == .union then
        (jsSplit type2.value " | ").foldl (fun acc t => addUnique acc (jsTrim t)) u1
      else
        addUnique u1 type2.value
    createUnionType u2 ((type1.confidence + type2.confidence) / 2)

/-! ### Interface hashing (`hashInterfaceDefinition`) -/

/-- ToInt32: reduce an integer to the 32-bit signed range, as JavaScript
bitwise operators do. -/
def toInt32 (n : Int) : Int :=
  let m := n % 4294967296
  if m < 2147483648 then m else m - 4294967296

/-- One step of the rolling hash: `hash = ((hash << 5) - hash) + char;
hash = hash & hash` (the final self-`&` coerces to a 32-bit integer). -/
def hashStep (hash : Int) (c : Char) : Int :=
  toInt32 (toInt32 (hash * 32) - hash + c.toNat)

/-- Base-36 digit, lowercase, as produced by `Number.prototype.toString(36)`. -/
def digitChar36 (n : Nat) : Char :=
  if n < 10 then Char.ofNat (48 + n) else Char.ofNat (87 + n)

/-- Worker for `toString36`; fuel-guarded structural recursion (fuel `n + 1`
always suffices since the value shrinks by a factor of 36 each step). -/
def toDigits36 : Nat → Nat → List Char → List Char
  | 0, _, acc => acc
  | fuel + 1, n, acc =>
    if n < 36 then digitChar36 n :: acc
    else toDigits36 fuel (n / 36) (digitChar36 (n % 36) :: acc)

/-- `Math.abs(hash).toString(36)` for a natural number. -/
def toString36 (n : Nat) : String :=
  String.mk (toDigits36 (n + 1) n [])

/-- Lexicographic code-point comparison of character lists.  This models the
total order induced by `a.name.localeCompare(b.name)` in the sort comparator
(locale collation details differ, but the hash properties at stake depend
only on the comparator being a total order on names). -/
def charListLe : List Char → List Char → Bool
  | [], _ => true
  | _ :: _, [] => false
  | a :: l1, b :: l2 =>
    if a.toNat < b.toNat then true
    else if b.toNat < a.toNat then false
    else charListLe l1 l2

def propNameLe (a b : PropertyDefinition) : Bool :=
  charListLe a.name.data b.name.data

/-- The comparator relation `a.name.localeCompare(b.name) <= 0`. -/
def propLeRel (a b : PropertyDefinition) : Prop := propNameLe a b = true

instance : DecidableRel propLeRel :=
  fun a b => inferInstanceAs (Decidable (propNameLe a b = true))

/-- `[...properties].sort((a, b) => a.name.localeCompare(b.name))`:
a stable sort by property name (`Array.prototype.sort` is stable, and
insertion sort is stable). -/
def sortProperties (properties : List PropertyDefinition) : List PropertyDefinition :=
  List.insertionSort propLeRel properties

/-- The canonical signature fragment for one property:
`name` + `?` when optional + `!` when readonly + `:` + type descriptor. -/
def propSignature (p : PropertyDefinition) : String :=
  p.name ++ (if p.optional then "?" else "") ++ (if p.readonly then "!" else "") ++
    ":" ++ p.type

/-- `hashInterfaceDefinition`: hash of the `|`-joined signature of the
properties sorted by name. -/
def hashInterfaceDefinition (properties : List PropertyDefinition) : String :=
  let sortedProps := sortProperties properties
  let signature := "|".intercalate (sortedProps.map propSignature)
  let hash := signature.data.foldl hashStep 0
  toString36 hash.natAbs

/-- Hash-based interface shape equality. -/
def areInterfacesEqual (def1 def2 : InterfaceDefinition) : Bool :=
  def1.hash == def2.hash

/-! ## The Babel AST fragment consumed by the `TypeInferrer`

The inductives below cover exactly the node categories the engine
distinguishes at runtime (`t.isStringLiteral`, `t.isSpreadElement`, …);
every other node category is collapsed into an `other…` constructor, which
is all the engine can observe of it.  Literal constructors carry no payload
when the engine never reads the payload (e.g. the numeric value of a
`NumericLiteral` is never inspected).  Numeric object keys carry the string
`String(key.value)` directly. -/

mutual
inductive Expr : Type where
  | privateName : Expr
  | stringLit : Expr
  | numericLit : Expr
  | booleanLit : Expr
  | nullLit : Expr
  | templateLit : Expr
  | bigintLit : Expr
  | regexpLit : Expr
  | arrayLit : List ArrayElem → Expr
  | objectLit : List ObjectMember → Expr
  | ident : String → Expr
  | unary : String → Expr → Expr
  | binary : String → Expr → Expr → Expr
  | logical : String → Expr → Expr → Expr
  | conditional : Expr → Expr → Expr → Expr
  | call : Expr → List CallArg → Expr
  | member : Expr → Bool → Expr → Expr
  | functionExpr : FnNode → Expr
  | otherExpr : Expr

/-- An element of an `ArrayExpression`: a hole (elision), a spread element,
or an ordinary expression. -/
inductive ArrayElem : Type where
  | hole : ArrayElem
  | spread : Expr → ArrayElem
  | elem : Expr → ArrayElem

/-- An argument of a `CallExpression`. -/
inductive CallArg : Type where
  | arg : Expr → CallArg
  | spreadArg : Expr → CallArg
  | placeholder : CallArg

/-- A property key: identifier, string literal, numeric literal (already
stringified), or any other key expression. -/
inductive PropKey : Type where
  | identKey : String → PropKey
  | stringKey : String → PropKey
  | numberKey : String → PropKey
  | otherKey : PropKey

/-- The value of an `ObjectProperty`: an expression, or a non-expression
`PatternLike` value. -/
inductive PropValue : Type where
  | expr : Expr → PropValue
  | patternLike : PropValue

/-- A member of an `ObjectExpression`: spread, plain property (with its
`computed` flag), or method shorthand. -/
inductive ObjectMember : Type where
  | spreadProp : Expr → ObjectMember
  | property : Bool → PropKey → PropValue → ObjectMember
  | method : Bool → PropKey → FnNode → ObjectMember

/-- A function-like node (`FunctionDeclaration`, `FunctionExpression`,
`ArrowFunctionExpression`, `ObjectMethod`): the arrow flag, parameter list
and body. -/
inductive FnNode : Type where
  | fn : Bool → List Param → FnBody → FnNode

inductive FnBody : Type where
  | exprBody : Expr → FnBody
  | blockBody : List Stmt → FnBody

/-- A function parameter pattern.  The left-hand side of an
`AssignmentPattern` (default parameter) is never read by the engine, which
infers strictly from the default-value expression. -/
inductive Param : Type where
  | identParam : String → Param
  | restParam : Param → Param
  | assignParam : Expr → Param
  | arrayPatParam : Param
  | objectPatParam : Param
  | otherParam : Param

/-- Statements, restricted to the categories the return-statement collector
and the parameter-usage walker distinguish.  Children the engine never
visits (loop heads, switch discriminants, variable names, …) are omitted.
`varDeclStmt` carries the declarators' optional initializers. -/
inductive Stmt : Type where
  | returnStmt : Option Expr → Stmt
  | blockStmt : List Stmt → Stmt
  | exprStmt : Expr → Stmt
  | ifStmt : Expr → Stmt → Option Stmt → Stmt
  | whileStmt : Expr → Stmt → Stmt
  | doWhileStmt : Expr → Stmt → Stmt
  | forStmt : Stmt → Stmt
  | forInStmt : Stmt → Stmt
  | forOfStmt : Stmt → Stmt
  | switchStmt : List SwitchCase → Stmt
  | tryStmt : Stmt → Option Stmt → Option Stmt → Stmt
  | labeledStmt : Stmt → Stmt
  | varDeclStmt : List (Option Expr) → Stmt
  | functionDecl : FnNode → Stmt
  | otherStmt : Stmt

/-- A `SwitchCase`: only the consequent statement list is ever visited. -/
inductive SwitchCase : Type where
  | case : List Stmt → SwitchCase
end

/-- `t.isExpression`: within the embedded fragment, everything except a
`PrivateName` is an expression. -/
def Expr.isExpression : Expr → Bool
  | .privateName => false
  | _ => true

/-- `t.isNumericLiteral`. -/
def Expr.isNumericLiteral : Expr → Bool
  | .numericLit => true
  | _ => false

/-! ## Context-free helpers of the `TypeInferrer` -/

/-- `inferIdentifierType`: scope lookup, then the three global sentinels. -/
def inferIdentifierType (name : String) (context : TypeContext) :
    InferredType × TypeContext :=
  match context.scope.lookup name with
  | some knownType => (knownType, context)
  | none =>
    match name with
    | "undefined" => (createPrimitiveType "undefined" 1.0, context)
    | "NaN" => (createPrimitiveType "number" 1.0, context)
    | "Infinity" => (createPrimitiveType "number" 1.0, context)
    | _ => (createUnknownType 0.0, context)

/-- `inferUnaryExpressionType`: dispatch on the operator alone (the operand
is never inferred). -/
def inferUnaryExpressionType (op : String) (context : TypeContext) :
    InferredType × TypeContext :=
  match op with
  | "!" => (createPrimitiveType "boolean" 1.0, context)
  | "+" => (createPrimitiveType "number" 1.0, context)
  | "-" => (createPrimitiveType "number" 1.0, context)
  | "~" => (createPrimitiveType "number" 1.0, context)
  | "typeof" => (createPrimitiveType "string" 1.0, context)
  | "void" => (createPrimitiveType "undefined" 1.0, context)
  | "delete" => (createPrimitiveType "boolean" 1.0, context)
  | _ => (createUnknownType 0.5, context)

/-- `inferBuiltInFunctionReturnType`: fixed table keyed on the callee name
(the arguments are received but never inspected). -/
def inferBuiltInFunctionReturnType (functionName : String) (_args : List CallArg)
    (context : TypeContext) : InferredType × TypeContext :=
  match functionName with
  | "String" => (createPrimitiveType "string" 1.0, context)
  | "Number" => (createPrimitiveType "number" 1.0, context)
  | "parseInt" => (createPrimitiveType "number" 1.0, context)
  | "parseFloat" => (createPrimitiveType "number" 1.0, context)
  | "Boolean" => (createPrimitiveType "boolean" 1.0, context)
  | "Array" => (createArrayType "unknown" 0.7, context)
  | "Object" => (createPrimitiveType "object" 0.7, context)
  | "Date" => (createPrimitiveType "Date" 1.0, context)
  | "RegExp" => (createPrimitiveType "RegExp" 1.0, context)
  | "Promise" => (createPrimitiveType "Promise<unknown>" 0.8, context)
  | _ => (createUnknownType 0.1, context)

/-- `inferArrayMethodReturnType`: fixed table for array-receiver methods;
the element type is the receiver's descriptor with one `[]` stripped. -/
def inferArrayMethodReturnType (methodName : String) (arrayType : InferredType)
    (context : TypeContext) : InferredType × TypeContext :=
  let elementType := replaceFirst arrayType.value "[]" ""
  match methodName with
  | "map" => (createArrayType elementType 0.9, context)
  | "filter" => (createArrayType elementType 0.9, context)
  | "slice" => (createArrayType elementType 0.9, context)
  | "concat" => (createArrayType elementType 0.9, context)
  | "find" => (createPrimitiveType (elementType ++ " | undefined") 0.9, context)
  | "pop" => (createPrimitiveType (elementType ++ " | undefined") 0.9, context)
  | "shift" => (createPrimitiveType (elementType ++ " | undefined") 0.9, context)
  | "reduce" => (createUnknownType 0.5, context)
  | "join" => (createPrimitiveType "string" 1.0, context)
  | "indexOf" => (createPrimitiveType "number" 1.0, context)
  | "lastIndexOf" => (createPrimitiveType "number" 1.0, context)
  | "findIndex" => (createPrimitiveType "number" 1.0, context)
  | "length" => (createPrimitiveType "number" 1.0, context)
  | "includes" => (createPrimitiveType "boolean" 1.0, context)
  | "some" => (createPrimitiveType "boolean" 1.0, context)
  | "every" => (createPrimitiveType "boolean" 1.0, context)
  | "forEach" => (createPrimitiveType "void" 0.9, context)
  | "push" => (createPrimitiveType "void" 0.9, context)
  | "unshift" => (createPrimitiveType "void" 0.9, context)
  | _ => (createUnknownType 0.3, context)

/-- `inferStringMethodReturnType`: fixed table for string-receiver methods
(the source method takes no context). -/
def inferStringMethodReturnType (methodName : String) : InferredType :=
  match methodName with
  | "charAt" => createPrimitiveType "string" 1.0
  | "concat" => createPrimitiveType "string" 1.0
  | "slice" => createPrimitiveType "string" 1.0
  | "substring" => createPrimitiveType "string" 1.0
  | "substr" => createPrimitiveType "string" 1.0
  | "toLowerCase" => createPrimitiveType "string" 1.0
  | "toUpperCase" => createPrimitiveType "string" 1.0
  | "trim" => createPrimitiveType "string" 1.0
  | "trimStart" => createPrimitiveType "string" 1.0
  | "trimEnd" => createPrimitiveType "string" 1.0
  | "repeat" => createPrimitiveType "string" 1.0
  | "replace" => createPrimitiveType "string" 1.0
  | "replaceAll" => createPrimitiveType "string" 1.0
  | "padStart" => createPrimitiveType "string" 1.0
  | "padEnd" => createPrimitiveType "string" 1.0
  | "split" => createArrayType "string" 1.0
  | "indexOf" => createPrimitiveType "number" 1.0
  | "lastIndexOf" => createPrimitiveType "number" 1.0
  | "search" => createPrimitiveType "number" 1.0
  | "charCodeAt" => createPrimitiveType "number" 1.0
  | "length" => createPrimitiveType "number" 1.0
  | "includes" => createPrimitiveType "boolean" 1.0
  | "startsWith" => createPrimitiveType "boolean" 1.0
  | "endsWith" => createPrimitiveType "boolean" 1.0
  | "match" => createPrimitiveType "RegExpMatchArray | null" 0.9
  | "matchAll" => createPrimitiveType "RegExpMatchArray | null" 0.9
  | _ => createUnknownType 0.3

/-- Key extraction in `inferObjectShape`: a non-computed identifier key, a
string-literal key, or a numeric-literal key (stringified); anything else
(including a computed identifier key) makes the shape uncertain. -/
def extractKeyName (computed : Bool) (key : PropKey) : Option String :=
  match key, computed with
  | .identKey n, false => some n
  | .stringKey v, _ => some v
  | .numberKey v, _ => some v
  | _, _ => none

/-- `needsQuotes`: true when the name does not match
`/^[a-zA-Z_$][a-zA-Z0-9_$]*$/`. -/
def isIdentStartChar (c : Char) : Bool := c.isAlpha || c = '_' || c = '$'

def isIdentTailChar (c : Char) : Bool := c.isAlphanum || c = '_' || c = '$'

def needsQuotes (name : String) : Bool :=
  match name.data with
  | [] => true
  | c :: rest => !(isIdentStartChar c && rest.all isIdentTailChar)

/-- Record of one processed object-literal property (the loop-local
accumulator entries of `inferObjectShape`). -/
structure PropInfo : Type where
  name : String
  type : InferredType
  optional : Bool
  method : Bool
deriving DecidableEq, Repr

/-- `buildInlineObjectType`: the inline `\x7b name?: type; ... \x7d` form. -/
def buildInlineObjectType (properties : List PropInfo) : String :=
  if properties.length = 0 then "\x7b\x7d"
  else
    let propStrings := properties.map (fun prop =>
      let optionalMarker := if prop.optional then "?" else ""
      let propName :=
        if needsQuotes prop.name then "\"" ++ prop.name ++ "\"" else prop.name
      propName ++ optionalMarker ++ ": " ++ prop.type.value)
    "\x7b " ++ "; ".intercalate propStrings ++ " \x7d"

/-- Decimal digit character. -/
def digitChar10 (n : Nat) : Char := Char.ofNat (48 + n)

/-- Worker for `decString` (fuel-guarded, fuel `n + 1` always suffices). -/
def decDigits : Nat → Nat → List Char → List Char
  | 0, _, acc => acc
  | fuel + 1, n, acc =>
    if n < 10 then digitChar10 n :: acc
    else decDigits fuel (n / 10) (digitChar10 (n % 10) :: acc)

/-- Decimal rendering of a natural number, as JavaScript template-literal
interpolation renders the counter in `Interface${counter}`. -/
def decString (n : Nat) : String :=
  String.mk (decDigits (n + 1) n [])

/-- `context.interfaces.has(name)`. -/
def interfacesHas (context : TypeContext) (name : String) : Bool :=
  context.interfaces.any (fun kv => kv.1 == name)

/-- The `while (context.interfaces.has(name))` scan of
`generateInterfaceName`; the fuel bounds the iteration count (one more than
the registry size always suffices, see `scanInterfaceName_spec`). -/
def scanInterfaceName (context : TypeContext) : Nat → Nat → String
  | 0, counter => "Interface" ++ decString counter
  | fuel + 1, counter =>
    let name := "Interface" ++ decString counter
    if interfacesHas context name then scanInterfaceName context fuel (counter + 1)
    else name

/-- `generateInterfaceName`: scan `Interface${N}` upward from
`context.interfaces.size + 1` until an unused name is found. -/
def generateInterfaceName (context : TypeContext) : String :=
  scanInterfaceName context (context.interfaces.length + 1) (context.interfaces.length + 1)

/-- Left fold of `mergeTypes` starting from the first element, mirroring
`let merged = ts[0]; for (let i = 1; i < ts.length; i++) merged =
mergeTypes(merged, ts[i])`. -/
def foldMerge1 : InferredType → List InferredType → InferredType
  | acc, [] => acc
  | acc, t :: ts => foldMerge1 (mergeTypes acc t) ts

/-- `Math.min(...confidences)` over a nonempty list, folded from the first
element. -/
def foldMin1 : Rat → List Rat → Rat
  | acc, [] => acc
  | acc, c :: cs => foldMin1 (min acc c) cs


/-! ## `collectReturnStatements`

The collector pushes every `ReturnStatement` reachable through blocks,
`if`/`else`, loop bodies, `switch` cases, `try`/`catch`/`finally` and
labeled statements; it does not descend into nested function definitions
(no branch matches a `FunctionDeclaration`).  A collected return statement
is represented by its optional argument. -/

mutual
def collectReturnStatements : Stmt → List (Option Expr)
  | .returnStmt arg => [arg]
  | .blockStmt body => collectReturnList body
  | .ifStmt _ consequent alt =>
    collectReturnStatements consequent ++ collectReturnOpt alt
  | .whileStmt _ body => collectReturnStatements body
  | .doWhileStmt _ body => collectReturnStatements body
  | .forStmt body => collectReturnStatements body
  | .forInStmt body => collectReturnStatements body
  | .forOfStmt body => collectReturnStatements body
  | .switchStmt cases => collectReturnCases cases
  | .tryStmt block handler finalizer =>
    collectReturnStatements block ++ collectReturnOpt handler ++
      collectReturnOpt finalizer
  | .labeledStmt body => collectReturnStatements body
  | _ => []

/-- The `if (node.alternate) ... ` / `if (node.handler) ...` guards: an
absent optional child contributes nothing. -/
def collectReturnOpt : Option Stmt → List (Option Expr)
  | some s => collectReturnStatements s
  | none => []

def collectReturnList : List Stmt → List (Option Expr)
  | [] => []
  | s :: rest => collectReturnStatements s ++ collectReturnList rest

def collectReturnCases : List SwitchCase → List (Option Expr)
  | [] => []
  | .case consequent :: rest => collectReturnList consequent ++ collectReturnCases rest
end

theorem sizeOf_list_append {α : Type} [SizeOf α] (l1 l2 : List α) :
    sizeOf (l1 ++ l2) + 1 = sizeOf l1 + sizeOf l2 := by
  induction l1 with
  | nil => simp; omega
  | cons a l ih => simp [List.cons_append]; omega

mutual
theorem collectReturnStatements_sizeOf (s : Stmt) :
    sizeOf (collectReturnStatements s) ≤ sizeOf s + 1 := by
  cases s with
  | returnStmt arg => cases arg <;> simp [collectReturnStatements]
  | blockStmt body =>
    have := collectReturnList_sizeOf body
    simp [collectReturnStatements]; omega
  | ifStmt test consequent alt =>
    have h1 := collectReturnStatements_sizeOf consequent
    have h2 := collectReturnOpt_sizeOf alt
    have h3 := sizeOf_list_append (collectReturnStatements consequent)
      (collectReturnOpt alt)
    simp [collectReturnStatements]; omega
  | whileStmt test body =>
    have := collectReturnStatements_sizeOf body
    simp [collectReturnStatements]; omega
  | doWhileStmt test body =>
    have := collectReturnStatements_sizeOf body
    simp [collectReturnStatements]; omega
  | forStmt body =>
    have := collectReturnStatements_sizeOf body
    simp [collectReturnStatements]; omega
  | forInStmt body =>
    have := collectReturnStatements_sizeOf body
    simp [collectReturnStatements]; omega
  | forOfStmt body =>
    have := collectReturnStatements_sizeOf body
    simp [collectReturnStatements]; omega
  | switchStmt cases =>
    have := collectReturnCases_sizeOf cases
    simp [collectReturnStatements]; omega
  | tryStmt block handler finalizer =>
    have h1 := collectReturnStatements_sizeOf block
    have hh := collectReturnOpt_sizeOf handler
    have hf := collectReturnOpt_sizeOf finalizer
    have h2 := sizeOf_list_append (collectReturnStatements block)
      (collectReturnOpt handler ++ collectReturnOpt finalizer)
    have h3 := sizeOf_list_append (collectReturnOpt handler)
      (collectReturnOpt finalizer)
    simp [collectReturnStatements]
    omega
  | labeledStmt body =>
    have := collectReturnStatements_sizeOf body
    simp [collectReturnStatements]; omega
  | exprStmt e => simp [collectReturnStatements]
  | varDeclStmt decls => simp [collectReturnStatements]
  | functionDecl fn => simp [collectReturnStatements]
  | otherStmt => simp [collectReturnStatements]

theorem collectReturnOpt_sizeOf (o : Option Stmt) :
    sizeOf (collectReturnOpt o) ≤ sizeOf o + 1 := by
  cases o with
  | none => simp [collectReturnOpt]
  | some s =>
    have := collectReturnStatements_sizeOf s
    simp [collectReturnOpt]; omega

theorem collectReturnList_sizeOf (l : List Stmt) :
    sizeOf (collectReturnList l) ≤ sizeOf l := by
  cases l with
  | nil => simp [collectReturnList]
  | cons s rest =>
    have h1 := collectReturnStatements_sizeOf s
    have h2 := collectReturnList_sizeOf rest
    have h3 := sizeOf_list_append (collectReturnStatements s) (collectReturnList rest)
    simp [collectReturnList]; omega

theorem collectReturnCases_sizeOf (l : List SwitchCase) :
    sizeOf (collectReturnCases l) ≤ sizeOf l := by
  cases l with
  | nil => simp [collectReturnCases]
  | cons c rest =>
    cases c with
    | case consequent =>
      have h1 := collectReturnList_sizeOf consequent
      have h2 := collectReturnCases_sizeOf rest
      have h3 := sizeOf_list_append (collectReturnList consequent) (collectReturnCases rest)
      simp [collectReturnCases]; omega
end

/-! ## Parameter usage analysis (`inferParameterTypeFromUsage`)

`analyzeExpression` inspects a single node and records evidence about the
parameter; `traverseStmt`/`traverseExpr` walk the function body over the
fixed set of traversable categories, calling `analyzeExpression` at the
points the source does.  Evidence is returned in discovery order.  Neither
walker descends into nested function definitions.  Neither reads the
context. -/

/-- Arithmetic operators whose operands give `number` evidence. -/
def arithEvidenceOps : List String := ["-", "*", "/", "%", "**"]

/-- Array-only method names (not shared with strings). -/
def arrayOnlyMethods : List String :=
  ["map", "filter", "reduce", "forEach", "find", "some", "every", "push",
   "pop", "shift", "unshift", "slice", "splice", "join"]

/-- String-only method names (not shared with arrays). -/
def stringOnlyMethods : List String :=
  ["toLowerCase", "toUpperCase", "trim", "split", "substring", "substr",
   "charAt", "charCodeAt", "startsWith", "endsWith", "replace", "replaceAll",
   "match", "search", "padStart", "padEnd", "repeat", "concat"]

/-- The recurring source condition
`t.isIdentifier(x) && x.name === paramName`. -/
def isParamIdent (paramName : String) : Expr → Bool
  | .ident n => n == paramName
  | _ => false

/-- The `analyzeExpression` closure: evidence contributed by one node. -/
def analyzeExpression (paramName : String) (expr : Expr) : List InferredType :=
  match expr with
  | .binary op left right =>
    (if isParamIdent paramName left && arithEvidenceOps.contains op then
      [createPrimitiveType "number" 0.8]
    else []) ++
    (if isParamIdent paramName right && arithEvidenceOps.contains op then
      [createPrimitiveType "number" 0.8]
    else [])
  | .unary op arg =>
    if isParamIdent paramName arg then
      if ["+", "-", "~"].contains op then [createPrimitiveType "number" 0.8]
      else if op == "!" then [createPrimitiveType "boolean" 0.7]
      else []
    else []
  | .member obj computed property =>
    (match property with
     | .ident methodName =>
       if isParamIdent paramName obj && !computed then
         if arrayOnlyMethods.contains methodName then [createArrayType "unknown" 0.7]
         else if stringOnlyMethods.contains methodName then
           [createPrimitiveType "string" 0.7]
         -- `includes` / `indexOf` / `lastIndexOf` exist on both arrays and
         -- strings: no evidence is recorded.
         else if methodName == "includes" || methodName == "indexOf" ||
             methodName == "lastIndexOf" then []
         -- `length` exists on both as well: no evidence.
         else if methodName == "length" then []
         else []
       else []
     | _ => [])
  | .call callee _ =>
    if isParamIdent paramName callee then [createPrimitiveType "Function" 0.8] else []
  | _ => []

mutual
/-- The `traverseNode` closure, on statement nodes. -/
def traverseStmt (paramName : String) : Stmt → List InferredType
  | .blockStmt body => traverseStmtList paramName body
  | .exprStmt e => analyzeExpression paramName e ++ traverseExpr paramName e
  | .returnStmt (some arg) =>
    analyzeExpression paramName arg ++ traverseExpr paramName arg
  | .returnStmt none => []
  | .ifStmt test consequent alt =>
    analyzeExpression paramName test ++ traverseExpr paramName test ++
      traverseStmt paramName consequent ++ traverseStmtOpt paramName alt
  | .varDeclStmt decls => traverseDeclList paramName decls
  | _ => []

def traverseStmtOpt (paramName : String) : Option Stmt → List InferredType
  | some s => traverseStmt paramName s
  | none => []

def traverseStmtList (paramName : String) : List Stmt → List InferredType
  | [] => []
  | s :: rest => traverseStmt paramName s ++ traverseStmtList paramName rest

/-- The `for (const declarator of node.declarations)` loop: only declarators
with an initializer are analyzed. -/
def traverseDeclList (paramName : String) : List (Option Expr) → List InferredType
  | [] => []
  | some init :: rest =>
    analyzeExpression paramName init ++ traverseExpr paramName init ++
      traverseDeclList paramName rest
  | none :: rest => traverseDeclList paramName rest

/-- The `traverseNode` closure, on expression nodes. -/
def traverseExpr (paramName : String) : Expr → List InferredType
  | .binary op left right =>
    analyzeExpression paramName (.binary op left right) ++
      traverseExpr paramName left ++ traverseExpr paramName right
  | .logical op left right =>
    analyzeExpression paramName (.logical op left right) ++
      traverseExpr paramName left ++ traverseExpr paramName right
  | .unary op arg =>
    analyzeExpression paramName (.unary op arg) ++ traverseExpr paramName arg
  | .member obj computed property =>
    analyzeExpression paramName (.member obj computed property) ++
      traverseExpr paramName obj ++
      (if Expr.isExpression property then traverseExpr paramName property else [])
  | .call callee args =>
    analyzeExpression paramName (.call callee args) ++
      traverseExpr paramName callee ++ traverseArgList paramName args
  | .arrayLit elements => traverseElemList paramName elements
  | _ => []

/-- The `for (const arg of node.arguments)` loop: only expression arguments
are traversed. -/
def traverseArgList (paramName : String) : List CallArg → List InferredType
  | [] => []
  | .arg e :: rest => traverseExpr paramName e ++ traverseArgList paramName rest
  | _ :: rest => traverseArgList paramName rest

/-- The `for (const element of node.elements)` loop: only non-hole,
non-spread elements are traversed. -/
def traverseElemList (paramName : String) : List ArrayElem → List InferredType
  | [] => []
  | .elem e :: rest => traverseExpr paramName e ++ traverseElemList paramName rest
  | _ :: rest => traverseElemList paramName rest
end

/-- `inferParameterTypeFromUsage`: walk the function body collecting usage
evidence; no evidence yields `unknown@0.3`, otherwise the evidence is folded
pairwise with `mergeTypes` in discovery order. -/
def inferParameterTypeFromUsage (paramName : String) (functionNode : FnNode) :
    InferredType :=
  let usageTypes :=
    match functionNode with
    | .fn _ _ (.blockBody stmts) => traverseStmt paramName (.blockStmt stmts)
    | .fn _ _ (.exprBody e) =>
      analyzeExpression paramName e ++ traverseExpr paramName e
  match usageTypes with
  | [] => createUnknownType 0.3
  | t0 :: rest => foldMerge1 t0 rest

theorem exprSizeOf_pos (e : Expr) : 0 < sizeOf e := by
  cases e <;> simp_arith

/-- `t.isObjectExpression(value)` as a projection: the member list when the
expression is an object literal. -/
def Expr.objProps : Expr → Option (List ObjectMember)
  | .objectLit props => some props
  | _ => none

theorem Expr.objProps_sizeOf : ∀ {e : Expr} {ps : List ObjectMember},
    Expr.objProps e = some ps → sizeOf ps < sizeOf e := by
  intro e ps h
  cases e <;> simp [Expr.objProps] at h
  subst h
  simp_arith

/-! ## The recursive inference engine

The mutually recursive methods of `TypeInferrer`.  Every method takes the
threaded `TypeContext` and returns it next to its result (the source passes
the context by reference; none of these methods ever mutates it, which is
proved below). -/

mutual
/-- `inferExpressionType`: dispatch on the node category. -/
def inferExpressionType (node : Expr) (context : TypeContext) :
    InferredType × TypeContext :=
  match node with
  | .privateName => (createUnknownType 0.3, context)
  | .stringLit => (createPrimitiveType "string" 1.0, context)
  | .numericLit => (createPrimitiveType "number" 1.0, context)
  | .booleanLit => (createPrimitiveType "boolean" 1.0, context)
  | .nullLit => (createPrimitiveType "null" 1.0, context)
  | .templateLit => (createPrimitiveType "string" 1.0, context)
  | .bigintLit => (createPrimitiveType "bigint" 1.0, context)
  | .regexpLit => (createPrimitiveType "RegExp" 1.0, context)
  | .arrayLit elements => inferArrayType elements context
  | .objectLit props => inferObjectShape props context
  | .ident name => inferIdentifierType name context
  | .unary op _ => inferUnaryExpressionType op context
  | .binary op left right => inferBinaryExpressionType op left right context
  | .logical op left right => inferLogicalExpressionType op left right context
  | .conditional _ consequent alternate =>
    inferConditionalExpressionType consequent alternate context
  | .call callee args => inferCallExpressionType callee args context
  | .member obj computed property =>
    inferMemberExpressionType obj computed property context
  -- function expressions and any unsupported category hit the default
  | .functionExpr _ => (createUnknownType 0.0, context)
  | .otherExpr => (createUnknownType 0.0, context)
termination_by (sizeOf node, 0)
decreasing_by
  all_goals simp_wf
  all_goals
    first
    | (apply Prod.Lex.right; omega)
    | (apply Prod.Lex.left; omega)

/-- `inferArrayType`: empty array, element inference (skipping holes and
spread elements), pairwise merge and consistency-based confidence. -/
def inferArrayType (elements : List ArrayElem) (context : TypeContext) :
    InferredType × TypeContext :=
  if elements.length = 0 then
    (createArrayType "unknown" 0.5, context)
  else
    match inferArrayElements elements context with
    -- no valid (non-hole, non-spread) element
    | ([], context1) => (createArrayType "unknown" 0.3, context1)
    | (t0 :: rest, context1) =>
      let mergedType := foldMerge1 t0 rest
      let allSameType := (t0 :: rest).all (fun t => t.value == t0.value)
      let confidence := if allSameType then (1.0 : Rat) else mergedType.confidence * 0.9
      (createArrayType mergedType.value confidence, context1)
termination_by (sizeOf elements, 5)
decreasing_by
  all_goals simp_wf
  all_goals
    first
    | (apply Prod.Lex.right; omega)
    | (apply Prod.Lex.left; omega)

/-- The element-inference loop of `inferArrayType`. -/
def inferArrayElements (elements : List ArrayElem) (context : TypeContext) :
    List InferredType × TypeContext :=
  match elements with
  | [] => ([], context)
  | .hole :: rest => inferArrayElements rest context
  | .spread _ :: rest => inferArrayElements rest context
  | .elem e :: rest =>
    let (elementType, context1) := inferExpressionType e context
    let (restTypes, context2) := inferArrayElements rest context1
    (elementType :: restTypes, context2)
termination_by (sizeOf elements, 4)
decreasing_by
  all_goals simp_wf
  all_goals
    first
    | (apply Prod.Lex.right; omega)
    | (apply Prod.Lex.left; omega)

/-- `inferBinaryExpressionType`: comparison, arithmetic and the special
`+` operator. -/
def inferBinaryExpressionType (op : String) (left right : Expr)
    (context : TypeContext) : InferredType × TypeContext :=
  let (leftType, context1) := inferExpressionType left context
  let (rightType, context2) := inferExpressionType right context1
  if ["==", "===", "!=", "!==", "<", "<=", ">", ">=", "in", "instanceof"].contains op then
    (createPrimitiveType "boolean" 1.0, context2)
  else if ["-", "*", "/", "%", "**", "<<", ">>", ">>>", "&", "|", "^"].contains op then
    (createPrimitiveType "number" 1.0, context2)
  else if op == "+" then
    if leftType.value == "string" || rightType.value == "string" then
      (createPrimitiveType "string" 0.95, context2)
    else if leftType.value == "number" && rightType.value == "number" then
      (createPrimitiveType "number" 1.0, context2)
    else
      (createPrimitiveType "string | number" 0.6, context2)
  else
    (createUnknownType 0.3, context2)
termination_by (sizeOf left + sizeOf right, 5)
decreasing_by
  all_goals simp_wf
  all_goals
    first
    | (apply Prod.Lex.left; have hp := exprSizeOf_pos right; omega)
    | (apply Prod.Lex.left; have hp := exprSizeOf_pos left; omega)

/-- `inferLogicalExpressionType`: `&&`/`||` merge; `??` prefers a confident
right operand. -/
def inferLogicalExpressionType (op : String) (left right : Expr)
    (context : TypeContext) : InferredType × TypeContext :=
  let (leftType, context1) := inferExpressionType left context
  let (rightType, context2) := inferExpressionType right context1
  if op == "&&" || op == "||" then
    (mergeTypes leftType rightType, context2)
  else if op == "??" then
    (if rightType.confidence > 0.5 then rightType else mergeTypes leftType rightType,
      context2)
  else
    (createUnknownType 0.3, context2)
termination_by (sizeOf left + sizeOf right, 5)
decreasing_by
  all_goals simp_wf
  all_goals
    first
    | (apply Prod.Lex.left; have hp := exprSizeOf_pos right; omega)
    | (apply Prod.Lex.left; have hp := exprSizeOf_pos left; omega)

/-- `inferConditionalExpressionType`: union of the two branches. -/
def inferConditionalExpressionType (consequent alternate : Expr)
    (context : TypeContext) : InferredType × TypeContext :=
  let (consequentType, context1) := inferExpressionType consequent context
  let (alternateType, context2) := inferExpressionType alternate context1
  (mergeTypes consequentType alternateType, context2)
termination_by (sizeOf consequent + sizeOf alternate, 5)
decreasing_by
  all_goals simp_wf
  all_goals
    first
    | (apply Prod.Lex.left; have hp := exprSizeOf_pos alternate; omega)
    | (apply Prod.Lex.left; have hp := exprSizeOf_pos consequent; omega)

/-- `inferCallExpressionType`: built-in table for identifier callees, method
dispatch for member callees. -/
def inferCallExpressionType (callee : Expr) (args : List CallArg)
    (context : TypeContext) : InferredType × TypeContext :=
  match callee with
  | .ident name => inferBuiltInFunctionReturnType name args context
  | .member obj computed property => inferMethodCallType obj computed property args context
  | _ => (createUnknownType 0.2, context)
termination_by (sizeOf callee + sizeOf args, 5)
decreasing_by
  all_goals simp_wf
  all_goals
    first
    | (apply Prod.Lex.right; omega)
    | (apply Prod.Lex.left; omega)

/-- `inferMethodCallType`: dot-notation method dispatch on the receiver's
inferred type. -/
def inferMethodCallType (obj : Expr) (computed : Bool) (property : Expr)
    (args : List CallArg) (context : TypeContext) : InferredType × TypeContext :=
  -- only non-computed access with an expression property is handled
  if computed || !(Expr.isExpression property) then
    (createUnknownType 0.2, context)
  else
    let (objectType, context1) := inferExpressionType obj context
    match property with
    | .ident methodName =>
      if objectType.kind == .array then
        inferArrayMethodReturnType methodName objectType context1
      else if objectType.value == "string" then
        (inferStringMethodReturnType methodName, context1)
      else
        (createUnknownType 0.2, context1)
    -- no method name could be extracted
    | _ => (createUnknownType 0.2, context1)
termination_by (sizeOf obj + sizeOf property, 5)
decreasing_by
  all_goals simp_wf
  all_goals
    first
    | (apply Prod.Lex.right; omega)
    | (apply Prod.Lex.left; have hp := exprSizeOf_pos property; omega)

/-- `inferMemberExpressionType`: array access by non-computed numeric index
returns `element | undefined`; everything else is unknown. -/
def inferMemberExpressionType (obj : Expr) (computed : Bool) (property : Expr)
    (context : TypeContext) : InferredType × TypeContext :=
  let (objectType, context1) := inferExpressionType obj context
  if objectType.kind == .array && !computed && Expr.isExpression property &&
      Expr.isNumericLiteral property then
    let elementType := replaceFirst objectType.value "[]" ""
    (createPrimitiveType (elementType ++ " | undefined") 0.9, context1)
  else
    (createUnknownType 0.2, context1)
termination_by (sizeOf obj, 5)
decreasing_by
  all_goals simp_wf
  all_goals
    first
    | (apply Prod.Lex.right; omega)
    | (apply Prod.Lex.left; omega)

/-- `inferObjectShape`: empty literal, property processing with early abort,
average confidence, inline type string and interface promotion. -/
def inferObjectShape (props : List ObjectMember) (context : TypeContext) :
    InferredType × TypeContext :=
  if props.length = 0 then
    (createObjectType "\x7b\x7d" 0.8, context)
  else
    match processObjectMembers props context with
    | (Sum.inl abortType, context1) => (abortType, context1)
    | (Sum.inr (properties, totalConfidence, propertyCount), context1) =>
      let avgConfidence :=
        if propertyCount > 0 then totalConfidence / (propertyCount : Rat) else (0.5 : Rat)
      let typeString := buildInlineObjectType properties
      let shouldHaveInterface := properties.length > 3 ||
        properties.any (fun p => p.type.kind == .object || p.type.kind == .function)
      if shouldHaveInterface then
        let interfaceName := generateInterfaceName context1
        (createObjectType typeString avgConfidence true (some interfaceName), context1)
      else
        (createObjectType typeString avgConfidence, context1)
termination_by (sizeOf props, 5)
decreasing_by
  all_goals simp_wf
  all_goals
    first
    | (apply Prod.Lex.right; omega)
    | (apply Prod.Lex.left; omega)

/-- The property loop of `inferObjectShape`.  `Sum.inl` is the early
`return createObjectType('object', 0.5)` abort (spread property, or a key
that is neither a non-computed identifier nor a string/numeric literal);
`Sum.inr` carries the processed property records, the total confidence and
the property count. -/
def processObjectMembers (props : List ObjectMember) (context : TypeContext) :
    (InferredType ⊕ (List PropInfo × Rat × Nat)) × TypeContext :=
  match props with
  | [] => (Sum.inr ([], 0, 0), context)
  | .spreadProp _ :: _ =>
    -- spread makes the shape uncertain: abort the whole literal
    (Sum.inl (createObjectType "object" 0.5), context)
  -- the loop body for an `ObjectProperty`, split on the value category
  -- (expression vs non-expression `PatternLike`) as the source's
  -- `isExpression` / `isPatternLike` tests do
  | .property computed key (.expr e) :: rest =>
    match extractKeyName computed key with
    | none => (Sum.inl (createObjectType "object" 0.5), context)
    | some propertyName =>
      let (propertyType, context1) := inferPropertyExprValue e context
      match processObjectMembers rest context1 with
      | (Sum.inl abortType, context2) => (Sum.inl abortType, context2)
      | (Sum.inr (properties, totalConfidence, propertyCount), context2) =>
        (Sum.inr (⟨propertyName, propertyType, false, false⟩ :: properties,
          propertyType.confidence + totalConfidence, propertyCount + 1), context2)
  | .property computed key .patternLike :: rest =>
    match extractKeyName computed key with
    | none => (Sum.inl (createObjectType "object" 0.5), context)
    | some propertyName =>
      let propertyType := createUnknownType 0.3
      match processObjectMembers rest context with
      | (Sum.inl abortType, context2) => (Sum.inl abortType, context2)
      | (Sum.inr (properties, totalConfidence, propertyCount), context2) =>
        (Sum.inr (⟨propertyName, propertyType, false, false⟩ :: properties,
          propertyType.confidence + totalConfidence, propertyCount + 1), context2)
  | .method computed key fn :: rest =>
    match extractKeyName computed key with
    | none => (Sum.inl (createObjectType "object" 0.5), context)
    | some propertyName =>
      let (returnType, context1) := inferFunctionReturnType fn context
      let (paramTypes, context2) := inferParameterTypes fn context1
      let paramSignature := ", ".intercalate
        (paramTypes.mapIdx (fun idx pt => "arg" ++ decString idx ++ ": " ++ pt.value))
      let propertyType :=
        createFunctionType ("(" ++ paramSignature ++ ") => " ++ returnType.value)
          returnType.confidence
      match processObjectMembers rest context2 with
      | (Sum.inl abortType, context3) => (Sum.inl abortType, context3)
      | (Sum.inr (properties, totalConfidence, propertyCount), context3) =>
        (Sum.inr (⟨propertyName, propertyType, false, true⟩ :: properties,
          propertyType.confidence + totalConfidence, propertyCount + 1), context3)
termination_by (sizeOf props, 4)
decreasing_by
  all_goals simp_wf
  all_goals
    first
    | (apply Prod.Lex.right; omega)
    | (apply Prod.Lex.left; omega)
    | (apply Prod.Lex.left; have hs := Expr.objProps_sizeOf hobj; omega)

/-- The property-value inference step of the `inferObjectShape` loop:
an object-literal value recurses into `inferObjectShape`, any other
expression value goes through `inferExpressionType`. -/
def inferPropertyExprValue (e : Expr) (context : TypeContext) :
    InferredType × TypeContext :=
  match hobj : Expr.objProps e with
  | some ps => inferObjectShape ps context
  | none => inferExpressionType e context
termination_by (sizeOf e, 6)
decreasing_by
  all_goals simp_wf
  all_goals
    first
    | (apply Prod.Lex.right; omega)
    | (apply Prod.Lex.left; have hs := Expr.objProps_sizeOf hobj; omega)

/-- `inferFunctionReturnType`: expression-bodied arrows are inferred
directly; otherwise the collected return statements determine the type. -/
def inferFunctionReturnType (node : FnNode) (context : TypeContext) :
    InferredType × TypeContext :=
  match node with
  | .fn isArrow _ body =>
    match isArrow, body with
    -- arrow function with an implicit-return expression body
    | true, .exprBody e => inferExpressionType e context
    -- a non-arrow node with a non-block body: nothing is collected
    | false, .exprBody _ => (createPrimitiveType "void" 1.0, context)
    | _, .blockBody stmts =>
      -- `returnStatements` is the collected list (inlined at both uses)
      if (collectReturnStatements (.blockStmt stmts)).length = 0 then
        (createPrimitiveType "void" 1.0, context)
      else
        let (returnTypes, context1) :=
          inferReturnTypes (collectReturnStatements (.blockStmt stmts)) context
        if returnTypes.all (fun t => t.value == "void") then
          (createPrimitiveType "void" 1.0, context1)
        else
          match returnTypes with
          -- unreachable: one type is contributed per collected statement,
          -- and the empty list is caught by the all-void check above
          | [] => (createPrimitiveType "void" 1.0, context1)
          | t0 :: rest =>
            let mergedType := foldMerge1 t0 rest
            let allSameType := (t0 :: rest).all (fun t => t.value == t0.value)
            let confidence :=
              if allSameType then foldMin1 t0.confidence (rest.map (fun t => t.confidence))
              else mergedType.confidence * 0.85
            ({ mergedType with confidence := confidence }, context1)
termination_by (sizeOf node, 5)
decreasing_by
  all_goals simp_wf
  all_goals
    first
    | (apply Prod.Lex.right; omega)
    | (apply Prod.Lex.left; omega)
    | (apply Prod.Lex.left;
       have h1 := collectReturnStatements_sizeOf (Stmt.blockStmt stmts);
       simp at h1; omega)

/-- The per-return-statement inference loop: a return with an argument is
inferred, a bare return contributes `void@1.0`. -/
def inferReturnTypes (returnStatements : List (Option Expr)) (context : TypeContext) :
    List InferredType × TypeContext :=
  match returnStatements with
  | [] => ([], context)
  | some argument :: rest =>
    let (returnType, context1) := inferExpressionType argument context
    let (restTypes, context2) := inferReturnTypes rest context1
    (returnType :: restTypes, context2)
  | none :: rest =>
    let (restTypes, context1) := inferReturnTypes rest context
    (createPrimitiveType "void" 1.0 :: restTypes, context1)
termination_by (sizeOf returnStatements, 1)
decreasing_by
  all_goals simp_wf
  all_goals
    first
    | (apply Prod.Lex.right; omega)
    | (apply Prod.Lex.left; omega)

/-- `inferParameterTypes`: infer each parameter in order. -/
def inferParameterTypes (node : FnNode) (context : TypeContext) :
    List InferredType × TypeContext :=
  match node with
  | .fn _ params _ => inferParamList params node context
termination_by (sizeOf node, 6)
decreasing_by
  all_goals simp_wf
  all_goals
    first
    | (apply Prod.Lex.right; omega)
    | (apply Prod.Lex.left; omega)

/-- The parameter loop of `inferParameterTypes`. -/
def inferParamList (params : List Param) (functionNode : FnNode)
    (context : TypeContext) : List InferredType × TypeContext :=
  match params with
  | [] => ([], context)
  | p :: rest =>
    let (paramType, context1) := inferParameterType p functionNode context
    let (restTypes, context2) := inferParamList rest functionNode context1
    (paramType :: restTypes, context2)
termination_by (sizeOf params, 6)
decreasing_by
  all_goals simp_wf
  all_goals
    first
    | (apply Prod.Lex.right; omega)
    | (apply Prod.Lex.left; omega)

/-- `inferParameterType`: structural dispatch on the parameter pattern. -/
def inferParameterType (param : Param) (functionNode : FnNode)
    (context : TypeContext) : InferredType × TypeContext :=
  match param with
  | .restParam argument =>
    let (elementType, context1) := inferParameterType argument functionNode context
    (createArrayType elementType.value (elementType.confidence * 0.9), context1)
  | .assignParam right => inferExpressionType right context
  | .arrayPatParam => (createArrayType "unknown" 0.5, context)
  | .objectPatParam => (createPrimitiveType "object" 0.5, context)
  | .identParam name => (inferParameterTypeFromUsage name functionNode, context)
  | .otherParam => (createUnknownType 0.0, context)
termination_by (sizeOf param, 6)
decreasing_by
  all_goals simp_wf
  all_goals
    first
    | (apply Prod.Lex.right; omega)
    | (apply Prod.Lex.left; omega)
end

/-- `inferVariableType`: a declarator with no initializer is unknown;
otherwise infer the initializer.  A `VariableDeclarator` is represented by
its optional `init` expression (the only field the method reads). -/
def inferVariableType (node : Option Expr) (context : TypeContext) :
    InferredType × TypeContext :=
  match node with
  | none => (createUnknownType 0.0, context)
  | some init => inferExpressionType init context

/-! ## Order-theoretic facts about the sort comparator -/

theorem charListLe_total (l1 l2 : List Char) :
    charListLe l1 l2 = true ∨ charListLe l2 l1 = true := by
  induction l1 generalizing l2 with
  | nil => left; simp [charListLe]
  | cons a t ih =>
    cases l2 with
    | nil => right; simp [charListLe]
    | cons b t2 =>
      by_cases h1 : a.toNat < b.toNat
      · left; simp [charListLe, h1]
      · by_cases h2 : b.toNat < a.toNat
        · right; simp [charListLe, h1, h2]
        · rcases ih t2 with h | h
          · left; simp [charListLe, h1, h2, h]
          · right; simp [charListLe, h1, h2, h]

theorem charListLe_trans : ∀ {l1 l2 l3 : List Char}, charListLe l1 l2 = true →
    charListLe l2 l3 = true → charListLe l1 l3 = true := by
  intro l1
  induction l1 with
  | nil => intro l2 l3 _ _; simp [charListLe]
  | cons a t ih =>
    intro l2 l3 h12 h23
    cases l2 with
    | nil => simp [charListLe] at h12
    | cons b t2 =>
      cases l3 with
      | nil => simp [charListLe] at h23
      | cons c t3 =>
        simp only [charListLe] at h12 h23 ⊢
        by_cases hab : a.toNat < b.toNat
        · by_cases hbc : b.toNat < c.toNat
          · simp [show a.toNat < c.toNat by omega]
          · by_cases hcb : c.toNat < b.toNat
            · simp [hbc, hcb] at h23
            · simp [show a.toNat < c.toNat by omega]
        · by_cases hba : b.toNat < a.toNat
          · simp [hab, hba] at h12
          · by_cases hbc : b.toNat < c.toNat
            · simp [show a.toNat < c.toNat by omega]
            · by_cases hcb : c.toNat < b.toNat
              · simp [hbc, hcb] at h23
              · simp [hab, hba] at h12
                simp [hbc, hcb] at h23
                simp [show ¬(a.toNat < c.toNat) by omega, show ¬(c.toNat < a.toNat) by omega]
                exact ih h12 h23

theorem charListLe_antisymmetric : ∀ {l1 l2 : List Char}, charListLe l1 l2 = true →
    charListLe l2 l1 = true → l1 = l2 := by
  intro l1
  induction l1 with
  | nil =>
    intro l2 h12 h21
    cases l2 with
    | nil => rfl
    | cons b t2 => simp [charListLe] at h21
  | cons a t ih =>
    intro l2 h12 h21
    cases l2 with
    | nil => simp [charListLe] at h12
    | cons b t2 =>
      simp only [charListLe] at h12 h21
      by_cases hab : a.toNat < b.toNat
      · simp [show ¬(b.toNat < a.toNat) by omega, hab] at h21
      · by_cases hba : b.toNat < a.toNat
        · simp [hab, hba] at h12
        · simp [hab, hba] at h12
          simp [show ¬(b.toNat < a.toNat) by omega, show ¬(a.toNat < b.toNat) by omega] at h21
          have hnat : a.toNat = b.toNat := by omega
          have hchar : a = b := Char.ext (UInt32.ext hnat)
          rw [hchar, ih h12 h21]

instance : IsTotal PropertyDefinition propLeRel :=
  ⟨fun a b => charListLe_total a.name.data b.name.data⟩

instance : IsTrans PropertyDefinition propLeRel :=
  ⟨fun _ _ _ h1 h2 => charListLe_trans h1 h2⟩

/-- The comparator together with name-distinctness (or plain equality): an
antisymmetric relation used to show sorted orders are unique. -/
def propLeStrict (a b : PropertyDefinition) : Prop :=
  (propNameLe a b = true ∧ a.name ≠ b.name) ∨ a = b

theorem propLeStrict_antisymm : ∀ a b : PropertyDefinition,
    propLeStrict a b → propLeStrict b a → a = b := by
  intro a b hab hba
  rcases hab with ⟨h1, hne⟩ | heq
  · rcases hba with ⟨h2, _⟩ | heq2
    · have hdata : a.name.data = b.name.data := charListLe_antisymmetric h1 h2
      have hnm : a.name = b.name := congrArg String.mk hdata
      exact absurd hnm hne
    · exact heq2.symm
  · exact heq

/-- Sorting by name is permutation-invariant when the names are pairwise
distinct. -/
theorem sortProperties_eq_of_perm (l1 l2 : List PropertyDefinition)
    (hp : l1.Perm l2) (hd : l1.Pairwise (fun a b => a.name ≠ b.name)) :
    sortProperties l1 = sortProperties l2 := by
  have hperm1 : (sortProperties l1).Perm l1 := List.perm_insertionSort propLeRel l1
  have hperm2 : (sortProperties l2).Perm l2 := List.perm_insertionSort propLeRel l2
  have hpermS : (sortProperties l1).Perm (sortProperties l2) :=
    hperm1.trans (hp.trans hperm2.symm)
  have hsym : ∀ {x y : PropertyDefinition}, x.name ≠ y.name → y.name ≠ x.name :=
    fun h heq => h heq.symm
  have hd1 : (sortProperties l1).Pairwise (fun a b => a.name ≠ b.name) :=
    (List.Perm.pairwise_iff hsym hperm1).mpr hd
  have hd2 : (sortProperties l2).Pairwise (fun a b => a.name ≠ b.name) :=
    (List.Perm.pairwise_iff hsym hperm2).mpr ((List.Perm.pairwise_iff hsym hp).mp hd)
  have hs1 : List.Sorted propLeRel (sortProperties l1) :=
    List.sorted_insertionSort propLeRel l1
  have hs2 : List.Sorted propLeRel (sortProperties l2) :=
    List.sorted_insertionSort propLeRel l2
  have hs1b : List.Sorted propLeStrict (sortProperties l1) :=
    List.Pairwise.imp (fun hab => Or.inl hab) (List.Pairwise.and hs1 hd1)
  have hs2b : List.Sorted propLeStrict (sortProperties l2) :=
    List.Pairwise.imp (fun hab => Or.inl hab) (List.Pairwise.and hs2 hd2)
  exact @List.eq_of_perm_of_sorted _ propLeStrict ⟨propLeStrict_antisymm⟩ _ _ hpermS hs1b hs2b

/-! ## Claim C1: the three cases of `mergeTypes` -/

/-- From the claim's wording (C1): the member descriptors of an operand —
the descriptor split on `" | "` when the operand has kind `union`, the
descriptor itself otherwise. -/
def memberDescriptors (t : InferredType) : List String :=
  if t.kind = TypeKind.union then (jsSplit t.value " | ").map jsTrim else [t.value]

/-- From the claim's wording (C1): deduplication keeping first occurrences. -/
def dedupMembers (l : List String) : List String := l.foldl addUnique []

/-- C1: `mergeTypes(a, b)` is defined by exactly three cases: equal types
keep the higher-confidence operand (`a` on a tie); an `unknown` operand
yields the other operand unchanged; otherwise the result is a union of the
deduplicated member descriptors of both operands (splitting an operand on
`" | "` only when it has kind `union`) at confidence
`(a.confidence + b.confidence) / 2`.  In particular merging the union
`["string", "number"]` with the primitive `"string"` yields a union whose
descriptor holds exactly one occurrence of `"string"` and one of
`"number"`. -/
theorem mergeTypes_three_cases :
    (∀ a b : InferredType,
      (areTypesEqual a b = true →
        mergeTypes a b = (if a.confidence ≥ b.confidence then a else b)) ∧
      (a.kind = TypeKind.unknown → areTypesEqual a b = false → mergeTypes a b = b) ∧
      (b.kind = TypeKind.unknown → areTypesEqual a b = false →
        a.kind ≠ TypeKind.unknown → mergeTypes a b = a) ∧
      (areTypesEqual a b = false → a.kind ≠ TypeKind.unknown →
        b.kind ≠ TypeKind.unknown →
        mergeTypes a b =
          createUnionType (dedupMembers (memberDescriptors a ++ memberDescriptors b))
            ((a.confidence + b.confidence) / 2))) ∧
    ((mergeTypes (createUnionType ["string", "number"])
        (createPrimitiveType "string")).kind = TypeKind.union ∧
      (jsSplit (mergeTypes (createUnionType ["string", "number"])
        (createPrimitiveType "string")).value " | ").count "string" = 1 ∧
      (jsSplit (mergeTypes (createUnionType ["string", "number"])
        (createPrimitiveType "string")).value " | ").count "number" = 1) := by
  constructor
  · intro a b
    refine ⟨?_, ?_, ?_, ?_⟩
    · intro heq
      simp [mergeTypes, heq]
    · intro ha hne
      simp [mergeTypes, hne, ha]
    · intro hb hne ha
      simp [mergeTypes, hne, ha, hb]
    · intro hne ha hb
      simp only [mergeTypes, hne, Bool.false_eq_true, if_false, beq_iff_eq, ha, hb]
      have hsplit : dedupMembers (memberDescriptors a ++ memberDescriptors b) =
          (memberDescriptors b).foldl addUnique ((memberDescriptors a).foldl addUnique []) := by
        simp [dedupMembers, List.foldl_append]
      rw [hsplit]
      by_cases hau : a.kind = TypeKind.union <;> by_cases hbu : b.kind = TypeKind.union <;>
        simp [memberDescriptors, hau, hbu, List.foldl_map]
  · exact ⟨by decide, by decide, by decide⟩

/-- Witness for C1 at concrete inputs, exercising the union case. -/
theorem mergeTypes_three_cases_witness :
    areTypesEqual (createPrimitiveType "boolean") (createPrimitiveType "string") = false ∧
    mergeTypes (createPrimitiveType "boolean") (createPrimitiveType "string") =
      createUnionType
        (dedupMembers (memberDescriptors (createPrimitiveType "boolean") ++
          memberDescriptors (createPrimitiveType "string")))
        (((createPrimitiveType "boolean").confidence +
          (createPrimitiveType "string").confidence) / 2) :=
  ⟨by decide,
    (mergeTypes_three_cases.1 (createPrimitiveType "boolean")
      (createPrimitiveType "string")).2.2.2 (by decide) (by decide) (by decide)⟩

/-! ## Claim C8: identity-with-unknown and idempotence of `mergeTypes` -/

/-- C8: for every inferred type `x` whose kind is not `unknown`,
`mergeTypes x unknown = x` and `mergeTypes unknown x = x` (for the unknown
type at any confidence), and `mergeTypes` is idempotent: `mergeTypes x x = x`
for every `x`. -/
theorem mergeTypes_unknown_identity_and_idempotent :
    (∀ (x : InferredType) (c : Rat), x.kind ≠ TypeKind.unknown →
      mergeTypes x (createUnknownType c) = x ∧ mergeTypes (createUnknownType c) x = x) ∧
    (∀ x : InferredType, mergeTypes x x = x) := by
  constructor
  · intro x c hx
    constructor
    · simp [mergeTypes, areTypesEqual, createUnknownType, hx]
    · simp [mergeTypes, areTypesEqual, createUnknownType, Ne.symm hx]
  · intro x
    simp [mergeTypes, areTypesEqual]

/-- Witness for C8 at a concrete non-unknown type. -/
theorem mergeTypes_unknown_identity_witness :
    (createPrimitiveType "string").kind ≠ TypeKind.unknown ∧
    mergeTypes (createPrimitiveType "string") (createUnknownType 0.0) =
      createPrimitiveType "string" ∧
    mergeTypes (createUnknownType 0.0) (createPrimitiveType "string") =
      createPrimitiveType "string" ∧
    mergeTypes (createPrimitiveType "string") (createPrimitiveType "string") =
      createPrimitiveType "string" :=
  ⟨by decide,
    (mergeTypes_unknown_identity_and_idempotent.1 (createPrimitiveType "string") 0.0
      (by decide)).1,
    (mergeTypes_unknown_identity_and_idempotent.1 (createPrimitiveType "string") 0.0
      (by decide)).2,
    mergeTypes_unknown_identity_and_idempotent.2 (createPrimitiveType "string")⟩

/-! ## Claim C2: permutation invariance and sensitivity of the hash -/

set_option maxRecDepth 100000 in
/-- Counterexample to C2 as stated: the rolling 31-based hash collides on
the classic pair of property names `"Aa"` / `"BB"`, so changing a property's
name does not always change the hash; and for a property list with two
properties of the same name, the (stable) sort leaves the duplicate-name
properties in input order, so permuting them changes the hash. -/
theorem hashInterfaceDefinition_counterexample :
    (hashInterfaceDefinition [⟨"Aa", "string", false, false⟩] =
        hashInterfaceDefinition [⟨"BB", "string", false, false⟩] ∧
      "Aa" ≠ "BB") ∧
    (([⟨"a", "string", false, false⟩, ⟨"a", "number", false, false⟩] :
        List PropertyDefinition).Perm
        [⟨"a", "number", false, false⟩, ⟨"a", "string", false, false⟩] ∧
      hashInterfaceDefinition
          [⟨"a", "string", false, false⟩, ⟨"a", "number", false, false⟩] ≠
        hashInterfaceDefinition
          [⟨"a", "number", false, false⟩, ⟨"a", "string", false, false⟩]) :=
  ⟨⟨by decide, by decide⟩, ⟨List.Perm.swap _ _ _, by decide⟩⟩

/-- C2 (amended): `hashInterfaceDefinition` returns the same hash for every
permutation of a property list whose property names are pairwise distinct;
sensitivity to changes is only generic, since the underlying 32-bit string
hash admits collisions (see the counterexample). -/
theorem hashInterfaceDefinition_perm_invariant :
    ∀ (l1 l2 : List PropertyDefinition), l1.Perm l2 →
      l1.Pairwise (fun a b => a.name ≠ b.name) →
      hashInterfaceDefinition l1 = hashInterfaceDefinition l2 := by
  intro l1 l2 hp hd
  have hs := sortProperties_eq_of_perm l1 l2 hp hd
  simp only [hashInterfaceDefinition, hs]

/-- Witness for the amended C2 at a concrete two-property permutation. -/
theorem hashInterfaceDefinition_perm_invariant_witness :
    ([⟨"a", "string", false, false⟩, ⟨"b", "number", true, false⟩] :
        List PropertyDefinition).Perm
      [⟨"b", "number", true, false⟩, ⟨"a", "string", false, false⟩] ∧
    hashInterfaceDefinition
        [⟨"a", "string", false, false⟩, ⟨"b", "number", true, false⟩] =
      hashInterfaceDefinition
        [⟨"b", "number", true, false⟩, ⟨"a", "string", false, false⟩] :=
  ⟨List.Perm.swap _ _ _,
    hashInterfaceDefinition_perm_invariant _ _ (List.Perm.swap _ _ _) (by decide)⟩

/-! ## Context preservation

None of the inference methods mutates the threaded context: every method
returns its context argument unchanged.  Proved simultaneously for the
whole mutual group. -/

set_option maxHeartbeats 4000000 in
/-! ## Context preservation

None of the inference methods mutates the threaded context: every method
returns its context argument unchanged.  Proved simultaneously for the
whole mutual group. -/

set_option maxHeartbeats 4000000 in
theorem contextPreserved :
    (∀ (node : Expr) (context : TypeContext),
      (inferExpressionType node context).2 = context) ∧
    (∀ (obj : Expr) (computed : Bool) (property : Expr) (context : TypeContext),
      (inferMemberExpressionType obj computed property context).2 = context) ∧
    (∀ (callee : Expr) (args : List CallArg) (context : TypeContext),
      (inferCallExpressionType callee args context).2 = context) ∧
    (∀ (obj : Expr) (computed : Bool) (property : Expr) (args : List CallArg)
      (context : TypeContext),
      (inferMethodCallType obj computed property args context).2 = context) ∧
    (∀ (consequent alternate : Expr) (context : TypeContext),
      (inferConditionalExpressionType consequent alternate context).2 = context) ∧
    (∀ (op : String) (left right : Expr) (context : TypeContext),
      (inferLogicalExpressionType op left right context).2 = context) ∧
    (∀ (op : String) (left right : Expr) (context : TypeContext),
      (inferBinaryExpressionType op left right context).2 = context) ∧
    (∀ (props : List ObjectMember) (context : TypeContext),
      (inferObjectShape props context).2 = context) ∧
    (∀ (props : List ObjectMember) (context : TypeContext),
      (processObjectMembers props context).2 = context) ∧
    (∀ (node : FnNode) (context : TypeContext),
      (inferParameterTypes node context).2 = context) ∧
    (∀ (params : List Param) (functionNode : FnNode) (context : TypeContext),
      (inferParamList params functionNode context).2 = context) ∧
    (∀ (param : Param) (functionNode : FnNode) (context : TypeContext),
      (inferParameterType param functionNode context).2 = context) ∧
    (∀ (node : FnNode) (context : TypeContext),
      (inferFunctionReturnType node context).2 = context) ∧
    (∀ (returnStatements : List (Option Expr)) (context : TypeContext),
      (inferReturnTypes returnStatements context).2 = context) ∧
    (∀ (e : Expr) (context : TypeContext),
      (inferPropertyExprValue e context).2 = context) ∧
    (∀ (elements : List ArrayElem) (context : TypeContext),
      (inferArrayType elements context).2 = context) ∧
    (∀ (elements : List ArrayElem) (context : TypeContext),
      (inferArrayElements elements context).2 = context) := by
  apply inferExpressionType.mutual_induct <;> intros
  all_goals
    try simp_all [inferExpressionType, inferMemberExpressionType, inferCallExpressionType,
      inferMethodCallType, inferConditionalExpressionType, inferLogicalExpressionType,
      inferBinaryExpressionType, inferObjectShape, processObjectMembers,
      inferPropertyExprValue, inferParameterTypes, inferParamList, inferParameterType,
      inferFunctionReturnType, inferReturnTypes, inferArrayType, inferArrayElements,
      inferIdentifierType, inferUnaryExpressionType, inferBuiltInFunctionReturnType,
      inferArrayMethodReturnType]
  all_goals try (repeat first | rfl | split)
  all_goals simp_all

theorem inferExpressionType_context (node : Expr) (context : TypeContext) :
    (inferExpressionType node context).2 = context := contextPreserved.1 node context

theorem inferObjectShape_context (props : List ObjectMember) (context : TypeContext) :
    (inferObjectShape props context).2 = context :=
  contextPreserved.2.2.2.2.2.2.2.1 props context

theorem processObjectMembers_context (props : List ObjectMember) (context : TypeContext) :
    (processObjectMembers props context).2 = context :=
  contextPreserved.2.2.2.2.2.2.2.2.1 props context

theorem inferParameterTypes_context (node : FnNode) (context : TypeContext) :
    (inferParameterTypes node context).2 = context :=
  contextPreserved.2.2.2.2.2.2.2.2.2.1 node context

theorem inferFunctionReturnType_context (node : FnNode) (context : TypeContext) :
    (inferFunctionReturnType node context).2 = context :=
  contextPreserved.2.2.2.2.2.2.2.2.2.2.2.2.1 node context

theorem inferReturnTypes_context (returnStatements : List (Option Expr))
    (context : TypeContext) :
    (inferReturnTypes returnStatements context).2 = context :=
  contextPreserved.2.2.2.2.2.2.2.2.2.2.2.2.2.1 returnStatements context

theorem inferPropertyExprValue_context (e : Expr) (context : TypeContext) :
    (inferPropertyExprValue e context).2 = context :=
  contextPreserved.2.2.2.2.2.2.2.2.2.2.2.2.2.2.1 e context

theorem inferArrayElements_context (elements : List ArrayElem) (context : TypeContext) :
    (inferArrayElements elements context).2 = context :=
  contextPreserved.2.2.2.2.2.2.2.2.2.2.2.2.2.2.2.2 elements context

/-! ## Claim C9 -/

/-- C9: for every AST node and every `TypeContext`, the inference
operations (`inferVariableType`, `inferExpressionType`, `inferObjectShape`,
`inferFunctionReturnType`, `inferParameterTypes`) leave the context
completely unchanged — the returned context is the input context, so scope,
interfaces and imports are all equal before and after the call; in
particular `inferObjectShape` never registers the synthesized
`InterfaceDefinition` in `context.interfaces`. -/
theorem inference_leaves_context_unchanged :
    (∀ (node : Option Expr) (context : TypeContext),
      (inferVariableType node context).2 = context) ∧
    (∀ (node : Expr) (context : TypeContext),
      (inferExpressionType node context).2 = context) ∧
    (∀ (props : List ObjectMember) (context : TypeContext),
      (inferObjectShape props context).2 = context) ∧
    (∀ (node : FnNode) (context : TypeContext),
      (inferFunctionReturnType node context).2 = context) ∧
    (∀ (node : FnNode) (context : TypeContext),
      (inferParameterTypes node context).2 = context) := by
  refine ⟨?_, inferExpressionType_context, inferObjectShape_context,
    inferFunctionReturnType_context, inferParameterTypes_context⟩
  intro node context
  cases node with
  | none => rfl
  | some init => exact inferExpressionType_context init context

/-! ## Claim C7: the `+` operator -/

/-- Counterexample to C7 as stated: on `true + true` (neither operand a
string, not both numbers) the result's kind is `primitive`, not `union` —
the source builds the fallback `"string | number"` descriptor with
`createPrimitiveType`, not `createUnionType`. -/
theorem inferBinary_plus_counterexample :
    (inferExpressionType (.binary "+" .booleanLit .booleanLit) createTypeContext).1 =
      createPrimitiveType "string | number" 0.6 ∧
    (createPrimitiveType "string | number" 0.6).kind ≠ TypeKind.union := by
  constructor
  · simp [inferExpressionType, inferBinaryExpressionType, createPrimitiveType]
  · decide

/-- C7 (amended): for every binary `+` expression, both operands are
inferred (in the same, unchanged context) and the result is: the string
primitive at confidence 0.95 when either operand's descriptor is
`"string"`; the number primitive at confidence 1.0 when both descriptors
are `"number"`; and otherwise the primitive-kind type with the union-shaped
descriptor `"string | number"` at confidence 0.6. -/
theorem inferBinary_plus_spec :
    ∀ (left right : Expr) (context : TypeContext),
      inferExpressionType (.binary "+" left right) context =
        (if (inferExpressionType left context).1.value = "string" ∨
            (inferExpressionType right context).1.value = "string" then
          createPrimitiveType "string" 0.95
        else if (inferExpressionType left context).1.value = "number" ∧
            (inferExpressionType right context).1.value = "number" then
          createPrimitiveType "number" 1.0
        else
          createPrimitiveType "string | number" 0.6, context) := by
  intro left right context
  rcases hL : inferExpressionType left context with ⟨leftType, c1⟩
  have h1 : c1 = context := by
    have h := inferExpressionType_context left context
    rw [hL] at h; exact h
  rw [h1] at hL
  rcases hR : inferExpressionType right context with ⟨rightType, c2⟩
  have h2 : c2 = context := by
    have h := inferExpressionType_context right context
    rw [hR] at h; exact h
  rw [h2] at hR
  have hc1 : ((["==", "===", "!=", "!==", "<", "<=", ">", ">=", "in",
      "instanceof"] : List String).contains "+") = false := by decide
  have hc2 : ((["-", "*", "/", "%", "**", "<<", ">>", ">>>", "&", "|",
      "^"] : List String).contains "+") = false := by decide
  simp only [inferExpressionType, inferBinaryExpressionType, hL, hR, hc1, hc2,
    Bool.false_eq_true, if_false]
  by_cases hLs : leftType.value = "string"
  · simp [hLs]
  · by_cases hRs : rightType.value = "string"
    · simp [hLs, hRs]
    · by_cases hnum : leftType.value = "number" ∧ rightType.value = "number"
      · simp [hLs, hRs, hnum, hnum.1, hnum.2]
      · simp [hLs, hRs, hnum]

/-! ## Claim C6: array literals -/

/-- C6: for every array-literal node, `inferExpressionType` returns
`unknown[]@0.5` when the element list is empty; skips holes and spread
elements, returning `unknown[]@0.3` when no inferable element exists; and
otherwise folds the element types pairwise with `mergeTypes` in source
order, with final confidence 1.0 when all element descriptors are textually
identical and `mergedConfidence * 0.9` otherwise — so an array mixing a
string and a numeric literal is array-kind with confidence strictly below
1.0. -/
theorem inferArrayLiteral_spec :
    ∀ (context : TypeContext),
      (inferExpressionType (.arrayLit []) context =
        (createArrayType "unknown" 0.5, context)) ∧
      (∀ (e : Expr) (rest : List ArrayElem),
        inferArrayElements (.spread e :: rest) context =
          inferArrayElements rest context ∧
        inferArrayElements (.hole :: rest) context =
          inferArrayElements rest context) ∧
      (∀ elements, elements ≠ [] →
        (inferArrayElements elements context).1 = [] →
        inferExpressionType (.arrayLit elements) context =
          (createArrayType "unknown" 0.3, context)) ∧
      (∀ elements t0 rest,
        (inferArrayElements elements context).1 = t0 :: rest →
        inferExpressionType (.arrayLit elements) context =
          (createArrayType (foldMerge1 t0 rest).value
            (if (t0 :: rest).all (fun t => t.value == t0.value) then 1.0
             else (foldMerge1 t0 rest).confidence * 0.9), context)) ∧
      ((inferExpressionType (.arrayLit [.elem .stringLit, .elem .numericLit])
          context).1.kind = TypeKind.array ∧
        (inferExpressionType (.arrayLit [.elem .stringLit, .elem .numericLit])
          context).1.confidence < 1) := by
  intro context
  have hmix :
      inferExpressionType (.arrayLit [.elem .stringLit, .elem .numericLit]) context =
        (createArrayType "string | number" 0.9, context) := by
    simp [inferExpressionType, inferArrayType, inferArrayElements, foldMerge1,
      mergeTypes, areTypesEqual, addUnique, createPrimitiveType, createUnionType,
      createArrayType]
    norm_num
    decide
  refine ⟨?_, ?_, ?_, ?_, ?_⟩
  · simp [inferExpressionType, inferArrayType, List.length_nil]
  · intro e rest
    constructor <;> simp [inferArrayElements]
  · intro elements hne hempty
    rcases hA : inferArrayElements elements context with ⟨ts, c1⟩
    have hc : c1 = context := by
      have h := inferArrayElements_context elements context
      rw [hA] at h; exact h
    rw [hc] at hA
    rw [hA] at hempty
    simp only at hempty
    subst hempty
    simp only [inferExpressionType, inferArrayType, hA]
    simp [hne, List.length_eq_zero.mpr]
  · intro elements t0 rest hcons
    rcases hA : inferArrayElements elements context with ⟨ts, c1⟩
    have hc : c1 = context := by
      have h := inferArrayElements_context elements context
      rw [hA] at h; exact h
    rw [hc] at hA
    rw [hA] at hcons
    simp only at hcons
    subst hcons
    have hne : elements ≠ [] := by
      intro habs
      subst habs
      simp [inferArrayElements] at hA
    simp only [inferExpressionType, inferArrayType, hA]
    simp [hne, List.length_eq_zero.mpr]
  · rw [hmix]
    constructor
    · rfl
    · show (createArrayType "string | number" 0.9).confidence < 1
      norm_num [createArrayType]

/-- Witness for C6, exercising the fold clause and the empty-result clause
at concrete inputs. -/
theorem inferArrayLiteral_spec_witness :
    inferExpressionType (.arrayLit [.elem .numericLit]) createTypeContext =
      (createArrayType "number" 1.0, createTypeContext) ∧
    inferExpressionType (.arrayLit [.spread .numericLit]) createTypeContext =
      (createArrayType "unknown" 0.3, createTypeContext) := by
  constructor
  · have h := (inferArrayLiteral_spec createTypeContext).2.2.2.1
      [ArrayElem.elem .numericLit] (createPrimitiveType "number" 1.0) []
      (by simp [inferArrayElements, inferExpressionType])
    rw [h]
    norm_num [foldMerge1, createPrimitiveType, createArrayType]
  · have h := (inferArrayLiteral_spec createTypeContext).2.2.1
      [ArrayElem.spread .numericLit] (by simp)
      (by simp [inferArrayElements])
    exact h

/-! ## Claim C4: function return types -/

theorem collectReturnList_eq_join (l : List Stmt) :
    collectReturnList l = (l.map collectReturnStatements).join := by
  induction l with
  | nil => simp [collectReturnList]
  | cons s rest ih => simp [collectReturnList, ih]

theorem collectReturnCases_eq_join (l : List SwitchCase) :
    collectReturnCases l = (l.map (fun c =>
      match c with
      | .case consequent => (consequent.map collectReturnStatements).join)).join := by
  induction l with
  | nil => simp [collectReturnCases]
  | cons c rest ih =>
    cases c
    simp [collectReturnCases, ih, collectReturnList_eq_join]

/-- C4: for a function node with a statement-block body, return statements
are collected through blocks, `if`/`else`, loop bodies, `switch` cases,
`try`/`catch`/`finally` and labeled statements — but never from nested
function definitions; zero collected returns yield `void@1.0`, an
argument-less return contributes `void@1.0`, an all-`void` contribution set
yields `void@1.0`, and otherwise the contributions are folded pairwise with
`mergeTypes` in discovery order with final confidence the minimum
contributed confidence when all contributed descriptors agree and
`mergedConfidence * 0.85` otherwise. -/
theorem inferFunctionReturnType_spec :
    (∀ fn : FnNode, collectReturnStatements (.functionDecl fn) = []) ∧
    (∀ arg, collectReturnStatements (.returnStmt arg) = [arg]) ∧
    (∀ stmts, collectReturnStatements (.blockStmt stmts) =
      (stmts.map collectReturnStatements).join) ∧
    (∀ test cons alt, collectReturnStatements (.ifStmt test cons (some alt)) =
      collectReturnStatements cons ++ collectReturnStatements alt) ∧
    (∀ test cons, collectReturnStatements (.ifStmt test cons none) =
      collectReturnStatements cons) ∧
    (∀ test body,
      collectReturnStatements (.whileStmt test body) = collectReturnStatements body ∧
      collectReturnStatements (.doWhileStmt test body) = collectReturnStatements body) ∧
    (∀ body,
      collectReturnStatements (.forStmt body) = collectReturnStatements body ∧
      collectReturnStatements (.forInStmt body) = collectReturnStatements body ∧
      collectReturnStatements (.forOfStmt body) = collectReturnStatements body ∧
      collectReturnStatements (.labeledStmt body) = collectReturnStatements body) ∧
    (∀ cases, collectReturnStatements (.switchStmt cases) =
      (cases.map (fun c =>
        match c with
        | .case consequent => (consequent.map collectReturnStatements).join)).join) ∧
    (∀ block handler finalizer,
      collectReturnStatements (.tryStmt block handler finalizer) =
        collectReturnStatements block ++ collectReturnOpt handler ++
          collectReturnOpt finalizer) ∧
    (∀ (rest : List (Option Expr)) (context : TypeContext),
      (inferReturnTypes (none :: rest) context).1 =
        createPrimitiveType "void" 1.0 :: (inferReturnTypes rest context).1) ∧
    (∀ (e : Expr) (rest : List (Option Expr)) (context : TypeContext),
      (inferReturnTypes (some e :: rest) context).1 =
        (inferExpressionType e context).1 :: (inferReturnTypes rest context).1) ∧
    (∀ (isArrow : Bool) (params : List Param) (stmts : List Stmt)
        (context : TypeContext),
      (collectReturnStatements (.blockStmt stmts) = [] →
        inferFunctionReturnType (.fn isArrow params (.blockBody stmts)) context =
          (createPrimitiveType "void" 1.0, context)) ∧
      ((inferReturnTypes (collectReturnStatements (.blockStmt stmts)) context).1.all
          (fun t => t.value == "void") = true →
        inferFunctionReturnType (.fn isArrow params (.blockBody stmts)) context =
          (createPrimitiveType "void" 1.0, context)) ∧
      (∀ t0 rest,
        (inferReturnTypes (collectReturnStatements (.blockStmt stmts)) context).1 =
          t0 :: rest →
        (t0 :: rest).all (fun t => t.value == "void") = false →
        inferFunctionReturnType (.fn isArrow params (.blockBody stmts)) context =
          ({ foldMerge1 t0 rest with
              confidence :=
                if (t0 :: rest).all (fun t => t.value == t0.value) then
                  foldMin1 t0.confidence (rest.map (fun t => t.confidence))
                else (foldMerge1 t0 rest).confidence * 0.85 }, context))) := by
  refine ⟨fun fn => rfl, fun arg => rfl, ?_, fun t c a => rfl, ?_,
    fun t b => ⟨rfl, rfl⟩, fun b => ⟨rfl, rfl, rfl, rfl⟩, ?_, fun b h f => rfl,
    ?_, ?_, ?_⟩
  · intro stmts
    simp [collectReturnStatements, collectReturnList_eq_join]
  · intro t c
    simp [collectReturnStatements, collectReturnOpt]
  · intro cases
    simp [collectReturnStatements, collectReturnCases_eq_join]
  · intro rest context
    rcases hR : inferReturnTypes rest context with ⟨ts, c1⟩
    simp [inferReturnTypes, hR]
  · intro e rest context
    rcases hE : inferExpressionType e context with ⟨t, c1⟩
    have hc : c1 = context := by
      have h := inferExpressionType_context e context
      rw [hE] at h; exact h
    rw [hc] at hE
    simp [inferReturnTypes, hE]
  · intro isArrow params stmts context
    refine ⟨?_, ?_, ?_⟩
    · intro hnil
      cases isArrow <;> simp [inferFunctionReturnType, hnil]
    · intro hvoid
      by_cases hnil : collectReturnStatements (.blockStmt stmts) = []
      · cases isArrow <;> simp [inferFunctionReturnType, hnil]
      · rcases hR : inferReturnTypes (collectReturnStatements (.blockStmt stmts))
            context with ⟨ts, c1⟩
        have hc : c1 = context := by
          have h := inferReturnTypes_context
            (collectReturnStatements (.blockStmt stmts)) context
          rw [hR] at h; exact h
        rw [hc] at hR
        rw [hR] at hvoid
        simp only at hvoid
        cases isArrow <;>
          simp [inferFunctionReturnType, hnil, hR, hvoid,
            List.length_eq_zero.mpr]
    · intro t0 rest hcons hnotvoid
      have hnil : collectReturnStatements (.blockStmt stmts) ≠ [] := by
        intro habs
        rw [habs] at hcons
        simp [inferReturnTypes] at hcons
      rcases hR : inferReturnTypes (collectReturnStatements (.blockStmt stmts))
          context with ⟨ts, c1⟩
      have hc : c1 = context := by
        have h := inferReturnTypes_context
          (collectReturnStatements (.blockStmt stmts)) context
        rw [hR] at h; exact h
      rw [hc] at hR
      rw [hR] at hcons
      simp only at hcons
      subst hcons
      cases isArrow <;>
        simp [inferFunctionReturnType, hnil, hR, hnotvoid,
          List.length_eq_zero.mpr]

/-- Witness for C4: a function with no return statement yields `void@1.0`,
and a function returning a string on one path and nothing on another yields
the merged union at confidence `0.85`. -/
theorem inferFunctionReturnType_spec_witness :
    inferFunctionReturnType (.fn false [] (.blockBody [])) createTypeContext =
      (createPrimitiveType "void" 1.0, createTypeContext) ∧
    inferFunctionReturnType
        (.fn false [] (.blockBody [.returnStmt (some .stringLit), .returnStmt none]))
        createTypeContext =
      (⟨TypeKind.union, "string | void", 0.85, false, none⟩, createTypeContext) := by
  constructor
  · exact (inferFunctionReturnType_spec.2.2.2.2.2.2.2.2.2.2.2 false [] []
      createTypeContext).1 rfl
  · have h := (inferFunctionReturnType_spec.2.2.2.2.2.2.2.2.2.2.2 false []
      [.returnStmt (some .stringLit), .returnStmt none] createTypeContext).2.2
      (createPrimitiveType "string" 1.0) [createPrimitiveType "void" 1.0]
      (by simp [collectReturnStatements, collectReturnList, collectReturnOpt,
        inferReturnTypes, inferExpressionType])
      (by decide)
    rw [h]
    have hfold : foldMerge1 (createPrimitiveType "string" 1.0)
        [createPrimitiveType "void" 1.0] =
        ⟨TypeKind.union, "string | void", 1, false, none⟩ := by
      simp [foldMerge1, mergeTypes, areTypesEqual, addUnique, createPrimitiveType,
        createUnionType]
      norm_num
      decide
    rw [hfold]
    norm_num
    decide

/-! ## Claim C5: parameter usage inference -/

/-- C5: a plain-identifier parameter is inferred from usage evidence:
arithmetic operands give `number@0.8`, unary `+ - ~` operands `number@0.8`,
unary `!` operands `boolean@0.7`, array-only method receivers
`unknown[]@0.7`, string-only method receivers `string@0.7`, callees
`Function@0.8`; the ambiguous methods `includes`/`indexOf`/`lastIndexOf`
and `length` contribute nothing; no evidence yields `unknown@0.3` and
otherwise the evidence is folded pairwise with `mergeTypes` in
traversal-discovery order.  In particular `function f(x) { return x * 2 }`
infers `x` as `number` at confidence `0.8 ≥ 0.7`. -/
theorem inferParameterUsage_spec :
    (∀ (name : String) (fn : FnNode) (context : TypeContext),
      inferParameterType (.identParam name) fn context =
        (inferParameterTypeFromUsage name fn, context)) ∧
    (∀ p op left right,
      analyzeExpression p (.binary op left right) =
        (if isParamIdent p left && arithEvidenceOps.contains op then
          [createPrimitiveType "number" 0.8] else []) ++
        (if isParamIdent p right && arithEvidenceOps.contains op then
          [createPrimitiveType "number" 0.8] else [])) ∧
    (∀ p op arg, isParamIdent p arg = true →
      analyzeExpression p (.unary op arg) =
        (if ["+", "-", "~"].contains op then [createPrimitiveType "number" 0.8]
         else if op == "!" then [createPrimitiveType "boolean" 0.7]
         else [])) ∧
    (∀ p m obj, isParamIdent p obj = true →
      analyzeExpression p (.member obj false (.ident m)) =
        (if arrayOnlyMethods.contains m then [createArrayType "unknown" 0.7]
         else if stringOnlyMethods.contains m then [createPrimitiveType "string" 0.7]
         else [])) ∧
    (∀ p obj, ∀ m ∈ (["includes", "indexOf", "lastIndexOf", "length"] : List String),
      analyzeExpression p (.member obj false (.ident m)) = []) ∧
    (∀ p callee args, isParamIdent p callee = true →
      analyzeExpression p (.call callee args) = [createPrimitiveType "Function" 0.8]) ∧
    (∀ (name : String) (isArrow : Bool) (params : List Param) (stmts : List Stmt),
      (traverseStmt name (.blockStmt stmts) = [] →
        inferParameterTypeFromUsage name (.fn isArrow params (.blockBody stmts)) =
          createUnknownType 0.3) ∧
      (∀ t0 rest, traverseStmt name (.blockStmt stmts) = t0 :: rest →
        inferParameterTypeFromUsage name (.fn isArrow params (.blockBody stmts)) =
          foldMerge1 t0 rest)) ∧
    (∀ (context : TypeContext),
      inferParameterTypes
          (.fn false [.identParam "x"]
            (.blockBody [.returnStmt (some (.binary "*" (.ident "x") .numericLit))]))
          context =
        ([createPrimitiveType "number" 0.8], context) ∧
      (0.7 : Rat) ≤ 0.8) := by
  refine ⟨?_, ?_, ?_, ?_, ?_, ?_, ?_, ?_⟩
  · intro name fn context
    simp [inferParameterType]
  · intro p op left right
    simp [analyzeExpression]
  · intro p op arg h
    simp [analyzeExpression, h]
  · intro p m obj h
    by_cases h1 : arrayOnlyMethods.contains m
    · simp [analyzeExpression, h, h1]
    · by_cases h2 : stringOnlyMethods.contains m
      · simp [analyzeExpression, h, h1, h2]
      · simp [analyzeExpression, h, h1, h2, ite_self]
  · intro p obj m hm
    fin_cases hm <;>
      simp [analyzeExpression, arrayOnlyMethods, stringOnlyMethods, ite_self]
  · intro p callee args h
    simp [analyzeExpression, h]
  · intro name isArrow params stmts
    constructor
    · intro h
      simp [inferParameterTypeFromUsage, h]
    · intro t0 rest h
      simp [inferParameterTypeFromUsage, h]
  · intro context
    constructor
    · have hev : traverseStmt "x"
          (.blockStmt [.returnStmt (some (.binary "*" (.ident "x") .numericLit))]) =
          [createPrimitiveType "number" 0.8, createPrimitiveType "number" 0.8] := by
        simp [traverseStmt, traverseStmtList, traverseExpr, analyzeExpression,
          isParamIdent, arithEvidenceOps]
      have husage : inferParameterTypeFromUsage "x"
          (.fn false [.identParam "x"]
            (.blockBody [.returnStmt (some (.binary "*" (.ident "x") .numericLit))])) =
          createPrimitiveType "number" 0.8 := by
        simp [inferParameterTypeFromUsage, hev, foldMerge1, mergeTypes, areTypesEqual]
      simp [inferParameterTypes, inferParamList, inferParameterType, husage]
    · norm_num

/-- Witness for C5: the unary-`!` rule and the `x * 2` example at concrete
inputs. -/
theorem inferParameterUsage_spec_witness :
    isParamIdent "x" (.ident "x") = true ∧
    analyzeExpression "x" (.unary "!" (.ident "x")) =
      [createPrimitiveType "boolean" 0.7] ∧
    inferParameterTypes
        (.fn false [.identParam "x"]
          (.blockBody [.returnStmt (some (.binary "*" (.ident "x") .numericLit))]))
        createTypeContext =
      ([createPrimitiveType "number" 0.8], createTypeContext) := by
  refine ⟨by decide, ?_, (inferParameterUsage_spec.2.2.2.2.2.2.2 createTypeContext).1⟩
  have h := inferParameterUsage_spec.2.2.1 "x" "!" (.ident "x") (by decide)
  rw [h]
  simp

/-! ## Decimal rendering is injective (needed for the interface-name scan) -/

def digitVal (c : Char) : Nat := c.toNat - 48

def decValChars (l : List Char) : Nat :=
  l.foldl (fun a c => 10 * a + digitVal c) 0

theorem decValChars_foldl (y : List Char) :
    ∀ s : Nat, y.foldl (fun a c => 10 * a + digitVal c) s =
      s * 10 ^ y.length + decValChars y := by
  induction y with
  | nil => intro s; simp [decValChars]
  | cons c y ih =>
    intro s
    simp only [List.foldl_cons, List.length_cons]
    rw [ih (10 * s + digitVal c)]
    have hc : decValChars (c :: y) = digitVal c * 10 ^ y.length + decValChars y := by
      show y.foldl (fun a c => 10 * a + digitVal c) (10 * 0 + digitVal c) = _
      rw [show (10 * 0 + digitVal c) = digitVal c by omega, ih (digitVal c)]
    rw [hc, pow_succ]
    ring

theorem digitVal_digitChar10 : ∀ r, r < 10 → digitVal (digitChar10 r) = r := by
  intro r hr
  interval_cases r <;> decide

theorem decValChars_cons (c : Char) (acc : List Char) :
    decValChars (c :: acc) = digitVal c * 10 ^ acc.length + decValChars acc := by
  show acc.foldl (fun a c => 10 * a + digitVal c) (10 * 0 + digitVal c) = _
  rw [show (10 * 0 + digitVal c) = digitVal c by omega, decValChars_foldl]

theorem decDigits_val : ∀ (fuel n : Nat) (acc : List Char), n < 10 ^ fuel →
    decValChars (decDigits fuel n acc) =
      n * 10 ^ acc.length + decValChars acc := by
  intro fuel
  induction fuel with
  | zero =>
    intro n acc hn
    simp at hn
    subst hn
    simp [decDigits]
  | succ fuel ih =>
    intro n acc hn
    by_cases h10 : n < 10
    · simp only [decDigits, h10, if_true]
      rw [decValChars_cons, digitVal_digitChar10 n h10]
    · simp only [decDigits, h10, if_false]
      have hdiv : n / 10 < 10 ^ fuel := by
        rw [Nat.div_lt_iff_lt_mul (by omega : 0 < 10)]
        calc n < 10 ^ (fuel + 1) := hn
        _ = 10 ^ fuel * 10 := by rw [pow_succ]
      rw [ih (n / 10) (digitChar10 (n % 10) :: acc) hdiv]
      rw [decValChars_cons, digitVal_digitChar10 (n % 10) (by omega)]
      calc n / 10 * 10 ^ (digitChar10 (n % 10) :: acc).length +
            (n % 10 * 10 ^ acc.length + decValChars acc)
          = (n / 10 * 10 + n % 10) * 10 ^ acc.length + decValChars acc := by
            simp [List.length_cons, pow_succ]; ring
        _ = n * 10 ^ acc.length + decValChars acc := by
            have hx : n / 10 * 10 + n % 10 = n := by omega
            rw [hx]

theorem decValChars_decString (n : Nat) : decValChars (decString n).data = n := by
  have hlt : n < 10 ^ (n + 1) := by
    calc n < 2 ^ (n + 1) := by
          have := Nat.lt_two_pow n
          have h2 : (2 : Nat) ^ n ≤ 2 ^ (n + 1) := Nat.pow_le_pow_right (by omega) (by omega)
          omega
    _ ≤ 10 ^ (n + 1) := Nat.pow_le_pow_left (by omega) (n + 1)
  have h := decDigits_val (n + 1) n [] hlt
  simp [decValChars] at h
  simpa [decString] using h

theorem decString_inj {n m : Nat} (h : decString n = decString m) : n = m := by
  have hd : (decString n).data = (decString m).data := congrArg String.data h
  have h1 := decValChars_decString n
  have h2 := decValChars_decString m
  rw [hd] at h1
  omega

theorem interfaceNameString_inj {n m : Nat}
    (h : "Interface" ++ decString n = "Interface" ++ decString m) : n = m := by
  have hd := congrArg String.data h
  simp only [String.data_append] at hd
  have hd2 := List.append_cancel_left hd
  exact decString_inj (by
    have : (decString n) = (decString m) := by
      cases hn : decString n
      cases hm : decString m
      rw [hn, hm] at hd2
      simp at hd2
      simp [hd2]
    exact this)

/-! ## The interface-name scan finds the first free name -/

theorem interfacesHas_mem {context : TypeContext} {name : String}
    (h : interfacesHas context name = true) :
    name ∈ context.interfaces.map Prod.fst := by
  simp only [interfacesHas, List.any_eq_true] at h
  rcases h with ⟨kv, hkv, hbeq⟩
  simp only [beq_iff_eq] at hbeq
  subst hbeq
  exact List.mem_map_of_mem Prod.fst hkv

/-- Among `len + 1` consecutive candidate names, at least one is not a key
of the (length-`len`) interface registry. -/
theorem scan_exists_free (context : TypeContext) (c0 : Nat) :
    ∃ k < context.interfaces.length + 1,
      interfacesHas context ("Interface" ++ decString (c0 + k)) = false := by
  by_contra hall
  push_neg at hall
  set len := context.interfaces.length with hlen
  have hmem : ∀ k < len + 1,
      ("Interface" ++ decString (c0 + k)) ∈ context.interfaces.map Prod.fst := by
    intro k hk
    have h := hall k hk
    exact interfacesHas_mem (by
      cases hx : interfacesHas context ("Interface" ++ decString (c0 + k))
      · exact absurd hx h
      · rfl)
  set names := (List.range (len + 1)).map
    (fun k => "Interface" ++ decString (c0 + k)) with hnames
  have hnodup : names.Nodup := by
    refine List.Nodup.map ?_ (List.nodup_range (len + 1))
    intro a b hab
    have := interfaceNameString_inj hab
    omega
  have hsub : names.toFinset ⊆ (context.interfaces.map Prod.fst).toFinset := by
    intro x hx
    rw [List.mem_toFinset] at hx ⊢
    rw [hnames, List.mem_map] at hx
    rcases hx with ⟨k, hk, hkx⟩
    rw [List.mem_range] at hk
    exact hkx ▸ hmem k hk
  have hcard1 : names.toFinset.card = len + 1 := by
    rw [List.toFinset_card_of_nodup hnodup, hnames, List.length_map,
      List.length_range]
  have hcard2 : (context.interfaces.map Prod.fst).toFinset.card ≤ len := by
    calc (context.interfaces.map Prod.fst).toFinset.card
        ≤ (context.interfaces.map Prod.fst).length := List.toFinset_card_le _
    _ = len := by rw [List.length_map]
  have := Finset.card_le_card hsub
  omega

theorem scanInterfaceName_spec : ∀ (fuel c0 : Nat) (context : TypeContext),
    (∃ k < fuel, interfacesHas context ("Interface" ++ decString (c0 + k)) = false) →
    ∃ k, scanInterfaceName context fuel c0 = "Interface" ++ decString k ∧ c0 ≤ k ∧
      interfacesHas context ("Interface" ++ decString k) = false ∧
      ∀ j, c0 ≤ j → j < k → interfacesHas context ("Interface" ++ decString j) = true := by
  intro fuel
  induction fuel with
  | zero =>
    intro c0 context h
    rcases h with ⟨k, hk, _⟩
    omega
  | succ fuel ih =>
    intro c0 context h
    by_cases hc : interfacesHas context ("Interface" ++ decString c0) = true
    · have hfree : ∃ k < fuel,
          interfacesHas context ("Interface" ++ decString (c0 + 1 + k)) = false := by
        rcases h with ⟨k, hk, hkf⟩
        cases k with
        | zero => simp at hkf; rw [hkf] at hc; exact absurd hc (by simp)
        | succ k2 =>
          exact ⟨k2, by omega, by
            have : c0 + 1 + k2 = c0 + (k2 + 1) := by omega
            rw [this]; exact hkf⟩
      rcases ih (c0 + 1) context hfree with ⟨k, hs, hk1, hkf, hmin⟩
      refine ⟨k, ?_, by omega, hkf, ?_⟩
      · simp only [scanInterfaceName, hc, if_true]
        exact hs
      · intro j hj1 hj2
        by_cases hj : j = c0
        · subst hj; exact hc
        · exact hmin j (by omega) hj2
    · refine ⟨c0, ?_, le_refl c0, by
        cases hx : interfacesHas context ("Interface" ++ decString c0)
        · rfl
        · exact absurd hx hc, by omega⟩
      simp only [scanInterfaceName, hc, if_false]
      simp at hc
      simp [hc]

theorem generateInterfaceName_spec (context : TypeContext) :
    ∃ k, generateInterfaceName context = "Interface" ++ decString k ∧
      context.interfaces.length + 1 ≤ k ∧
      interfacesHas context ("Interface" ++ decString k) = false ∧
      ∀ j, context.interfaces.length + 1 ≤ j → j < k →
        interfacesHas context ("Interface" ++ decString j) = true := by
  exact scanInterfaceName_spec (context.interfaces.length + 1)
    (context.interfaces.length + 1) context
    (scan_exists_free context (context.interfaces.length + 1))

/-! ## Claim C3: object shapes -/

/-- From the claim (C3, amended): a member that aborts precise inference of
the whole object literal — a spread property, or a property/method whose
key is neither a non-computed identifier nor a string or numeric literal. -/
def isAbortTrigger : ObjectMember → Bool
  | .spreadProp _ => true
  | .property computed key _ => (extractKeyName computed key).isNone
  | .method computed key _ => (extractKeyName computed key).isNone

theorem processObjectMembers_abort :
    ∀ (props : List ObjectMember) (context : TypeContext),
      props.any isAbortTrigger = true →
      processObjectMembers props context =
        (Sum.inl (createObjectType "object" 0.5), context) := by
  intro props
  induction props with
  | nil => intro context h; simp at h
  | cons m rest ih =>
    intro context h
    cases m with
    | spreadProp e => simp [processObjectMembers]
    | property computed key value =>
      cases hk : extractKeyName computed key with
      | none =>
        cases value <;> simp [processObjectMembers, hk]
      | some pname =>
        have hrest : rest.any isAbortTrigger = true := by
          simp [isAbortTrigger, hk] at h
          simpa using h
        cases value with
        | expr e =>
          rcases hP : inferPropertyExprValue e context with ⟨t, c1⟩
          have hc : c1 = context := by
            have hcc := inferPropertyExprValue_context e context
            rw [hP] at hcc; exact hcc
          rw [hc] at hP
          simp [processObjectMembers, hk, hP, ih context hrest]
        | patternLike =>
          simp [processObjectMembers, hk, ih context hrest]
    | method computed key fn =>
      cases hk : extractKeyName computed key with
      | none => simp [processObjectMembers, hk]
      | some pname =>
        have hrest : rest.any isAbortTrigger = true := by
          simp [isAbortTrigger, hk] at h
          simpa using h
        rcases hF : inferFunctionReturnType fn context with ⟨rt, c1⟩
        have hc1 : c1 = context := by
          have hcc := inferFunctionReturnType_context fn context
          rw [hF] at hcc; exact hcc
        rw [hc1] at hF
        rcases hPT : inferParameterTypes fn context with ⟨pts, c2⟩
        have hc2 : c2 = context := by
          have hcc := inferParameterTypes_context fn context
          rw [hPT] at hcc; exact hcc
        rw [hc2] at hPT
        simp [processObjectMembers, hk, hF, hPT, ih context hrest]

/-- The non-abort result of `inferObjectShape`, in terms of the processed
property records. -/
theorem inferObjectShape_inr (context : TypeContext) (props : List ObjectMember)
    (infos : List PropInfo) (total : Rat) (count : Nat)
    (hne : props ≠ [])
    (hproc : processObjectMembers props context = (Sum.inr (infos, total, count), context)) :
    inferObjectShape props context =
      (if infos.length > 3 || infos.any (fun p =>
          p.type.kind == TypeKind.object || p.type.kind == TypeKind.function) then
        createObjectType (buildInlineObjectType infos)
          (if count > 0 then total / (count : Rat) else 0.5) true
          (some (generateInterfaceName context))
      else
        createObjectType (buildInlineObjectType infos)
          (if count > 0 then total / (count : Rat) else 0.5), context) := by
  have hlen : ¬ props.length = 0 := by
    intro habs
    exact hne (List.length_eq_zero.mp habs)
  simp only [inferObjectShape, hproc, hlen, if_false]
  split <;> rfl

/-- Counterexample to C3 as stated: a computed key whose key node is a
string literal (`{["a"]: 1}`) does not abort — the `isStringLiteral`
branch of the key extraction does not test `computed`, so the property is
accepted and precisely inferred. -/
theorem inferObjectShape_computedKey_counterexample :
    inferObjectShape [.property true (.stringKey "a") (.expr .numericLit)]
        createTypeContext =
      (createObjectType "\x7b a: number \x7d" 1.0, createTypeContext) ∧
    createObjectType "\x7b a: number \x7d" 1.0 ≠ createObjectType "object" 0.5 := by
  constructor
  · have hP : inferPropertyExprValue Expr.numericLit createTypeContext =
        (createPrimitiveType "number" 1.0, createTypeContext) := by
      simp [inferPropertyExprValue, Expr.objProps, inferExpressionType]
    have hproc : processObjectMembers
        [.property true (.stringKey "a") (.expr .numericLit)] createTypeContext =
        (Sum.inr ([⟨"a", createPrimitiveType "number" 1.0, false, false⟩],
          (createPrimitiveType "number" 1.0).confidence + 0, 0 + 1),
          createTypeContext) := by
      simp [processObjectMembers, extractKeyName, hP]
    rw [inferObjectShape_inr createTypeContext _ _ _ _ (by simp) hproc]
    rw [if_neg (by decide)]
    norm_num [buildInlineObjectType, needsQuotes, isIdentStartChar,
      createPrimitiveType, createObjectType]
    decide
  · intro h
    have hv := congrArg InferredType.value h
    simp [createObjectType] at hv

/-- C3 (amended): `inferObjectShape` returns the opaque `object@0.5` as
soon as any spread property, or any property whose key is neither a
non-computed identifier nor a string/numeric literal, occurs anywhere in
the literal (discarding partial results); a computed key whose key node is
itself a string or numeric literal is accepted like the corresponding
literal key.  Otherwise `needsInterface` is set exactly when the property
count exceeds 3 or some property type has kind `object` or `function`, and
the synthesized name is `Interface${N}` for the first `N`, scanning upward
from `context.interfaces.size + 1`, that is not already registered. -/
theorem inferObjectShape_spec :
    (∀ (context : TypeContext) (props : List ObjectMember),
      props.any isAbortTrigger = true →
      inferObjectShape props context = (createObjectType "object" 0.5, context)) ∧
    (∀ (context : TypeContext) (props : List ObjectMember) (infos : List PropInfo)
        (total : Rat) (count : Nat),
      props ≠ [] →
      processObjectMembers props context = (Sum.inr (infos, total, count), context) →
      ((inferObjectShape props context).1.needsInterface = true ↔
        (3 < infos.length ∨ ∃ p ∈ infos, p.type.kind = TypeKind.object ∨
          p.type.kind = TypeKind.function)) ∧
      ((inferObjectShape props context).1.needsInterface = true →
        (inferObjectShape props context).1.interfaceName =
          some (generateInterfaceName context))) ∧
    (∀ context : TypeContext, ∃ k,
      generateInterfaceName context = "Interface" ++ decString k ∧
      context.interfaces.length + 1 ≤ k ∧
      interfacesHas context ("Interface" ++ decString k) = false ∧
      ∀ j, context.interfaces.length + 1 ≤ j → j < k →
        interfacesHas context ("Interface" ++ decString j) = true) := by
  refine ⟨?_, ?_, generateInterfaceName_spec⟩
  · intro context props h
    have hne : props ≠ [] := by
      intro habs; subst habs; simp at h
    simp [inferObjectShape, List.length_eq_zero.mpr, hne,
      processObjectMembers_abort props context h]
  · intro context props infos total count hne hproc
    rw [inferObjectShape_inr context props infos total count hne hproc]
    have hbool : ((infos.length > 3 || infos.any (fun p =>
        p.type.kind == TypeKind.object || p.type.kind == TypeKind.function)) = true) ↔
        (3 < infos.length ∨ ∃ p ∈ infos, p.type.kind = TypeKind.object ∨
          p.type.kind = TypeKind.function) := by
      simp
    by_cases hc : (infos.length > 3 || infos.any (fun p =>
        p.type.kind == TypeKind.object || p.type.kind == TypeKind.function)) = true
    · rw [if_pos hc]
      refine ⟨?_, ?_⟩
      · simp only [createObjectType]
        simpa using hbool.mp hc
      · intro _
        simp [createObjectType]
    · rw [if_neg hc]
      refine ⟨?_, ?_⟩
      · simp only [createObjectType]
        simp only [Bool.false_eq_true, false_iff]
        intro habs
        exact hc (hbool.mpr habs)
      · intro habs
        simp [createObjectType] at habs

/-! ## Claim C10: confidence scores stay in the unit interval

The spec claims that every confidence score produced by the engine lies in
`[0, 1]` provided every type recorded in the scope map does.  `confBounded`
is the bound on one type, `ScopeBounded` the hypothesis on the context, and
`procBounded` the invariant carried by the object-property loop (each
processed property bounded, and the running total bounded by the running
count, so that the average is again in the interval). -/

def confBounded (t : InferredType) : Prop :=
  0 ≤ t.confidence ∧ t.confidence ≤ 1

def ScopeBounded (context : TypeContext) : Prop :=
  ∀ p ∈ context.scope, confBounded p.2

def procBounded : InferredType ⊕ (List PropInfo × Rat × Nat) → Prop
  | Sum.inl t => confBounded t
  | Sum.inr (infos, total, count) =>
    (∀ p ∈ infos, confBounded p.type) ∧ 0 ≤ total ∧ total ≤ (count : Rat)

theorem lookup_bounded_aux : ∀ (l : List (String × InferredType)) (name : String)
    (t : InferredType), (∀ p ∈ l, confBounded p.2) →
    l.lookup name = some t → confBounded t := by
  intro l
  induction l with
  | nil => intro name t _ h; simp [List.lookup] at h
  | cons hd tl ih =>
    intro name t hs h
    obtain ⟨k, b⟩ := hd
    cases hbeq : (name == k) with
    | true =>
      simp [List.lookup, hbeq] at h
      exact h ▸ hs (k, b) (by simp)
    | false =>
      simp [List.lookup, hbeq] at h
      exact ih name t (fun p hp => hs p (by simp [hp])) h

theorem mergeTypes_bounded {a b : InferredType} (ha : confBounded a)
    (hb : confBounded b) : confBounded (mergeTypes a b) := by
  obtain ⟨ha0, ha1⟩ := ha
  obtain ⟨hb0, hb1⟩ := hb
  unfold mergeTypes
  split_ifs <;> constructor <;>
    first
      | linarith
      | (simp only [createUnionType]; linarith)

theorem foldMerge1_bounded : ∀ (ts : List InferredType) (acc : InferredType),
    confBounded acc → (∀ t ∈ ts, confBounded t) → confBounded (foldMerge1 acc ts) := by
  intro ts
  induction ts with
  | nil => intro acc ha _; simpa [foldMerge1] using ha
  | cons t ts ih =>
    intro acc ha hts
    rw [foldMerge1]
    exact ih (mergeTypes acc t) (mergeTypes_bounded ha (hts t (by simp)))
      (fun u hu => hts u (by simp [hu]))

theorem foldMin1_bounded : ∀ (cs : List Rat) (acc : Rat),
    0 ≤ acc → acc ≤ 1 → (∀ c ∈ cs, 0 ≤ c ∧ c ≤ 1) →
    0 ≤ foldMin1 acc cs ∧ foldMin1 acc cs ≤ 1 := by
  intro cs
  induction cs with
  | nil => intro acc h0 h1 _; rw [foldMin1]; exact ⟨h0, h1⟩
  | cons c cs ih =>
    intro acc h0 h1 hcs
    rw [foldMin1]
    exact ih (min acc c) (le_min h0 (hcs c (by simp)).1)
      (le_trans (min_le_left _ _) h1) (fun d hd => hcs d (by simp [hd]))

theorem inferIdentifierType_bounded (name : String) (context : TypeContext)
    (hs : ScopeBounded context) : confBounded (inferIdentifierType name context).1 := by
  unfold inferIdentifierType
  cases hl : context.scope.lookup name with
  | some t =>
    simp only [hl]
    exact lookup_bounded_aux context.scope name t hs hl
  | none =>
    simp only [hl]
    split <;> norm_num [confBounded, createPrimitiveType, createUnknownType]

theorem inferUnaryExpressionType_bounded (op : String) (context : TypeContext) :
    confBounded (inferUnaryExpressionType op context).1 := by
  unfold inferUnaryExpressionType
  split <;> norm_num [confBounded, createPrimitiveType, createUnknownType]

theorem inferBuiltInFunctionReturnType_bounded (n : String) (args : List CallArg)
    (context : TypeContext) :
    confBounded (inferBuiltInFunctionReturnType n args context).1 := by
  unfold inferBuiltInFunctionReturnType
  split <;> norm_num [confBounded, createPrimitiveType, createArrayType, createUnknownType]

theorem inferArrayMethodReturnType_bounded (m : String) (t : InferredType)
    (context : TypeContext) :
    confBounded (inferArrayMethodReturnType m t context).1 := by
  unfold inferArrayMethodReturnType
  split <;> norm_num [confBounded, createPrimitiveType, createArrayType, createUnknownType]

theorem inferStringMethodReturnType_bounded (m : String) :
    confBounded (inferStringMethodReturnType m) := by
  unfold inferStringMethodReturnType
  split <;> norm_num [confBounded, createPrimitiveType, createArrayType, createUnknownType]

theorem analyzeExpression_bounded (p : String) (e : Expr) :
    ∀ t ∈ analyzeExpression p e, confBounded t := by
  intro t ht
  unfold analyzeExpression at ht
  all_goals try split at ht
  all_goals try split at ht
  all_goals try split at ht
  all_goals try split at ht
  all_goals try split at ht
  all_goals try split at ht
  all_goals try split at ht
  all_goals simp_all [confBounded, createPrimitiveType, createArrayType]
  all_goals norm_num

mutual
theorem traverseExpr_bounded (p : String) : ∀ (e : Expr),
    ∀ t ∈ traverseExpr p e, confBounded t := by
  intro e
  cases e with
  | binary op left right =>
    intro t ht
    simp only [traverseExpr, List.mem_append] at ht
    rcases ht with (h | h) | h
    · exact analyzeExpression_bounded p _ t h
    · exact traverseExpr_bounded p left t h
    · exact traverseExpr_bounded p right t h
  | logical op left right =>
    intro t ht
    simp only [traverseExpr, List.mem_append] at ht
    rcases ht with (h | h) | h
    · exact analyzeExpression_bounded p _ t h
    · exact traverseExpr_bounded p left t h
    · exact traverseExpr_bounded p right t h
  | unary op arg =>
    intro t ht
    simp only [traverseExpr, List.mem_append] at ht
    rcases ht with h | h
    · exact analyzeExpression_bounded p _ t h
    · exact traverseExpr_bounded p arg t h
  | member obj computed property =>
    intro t ht
    simp only [traverseExpr, List.mem_append] at ht
    rcases ht with (h | h) | h
    · exact analyzeExpression_bounded p _ t h
    · exact traverseExpr_bounded p obj t h
    · split at h
      · exact traverseExpr_bounded p property t h
      · simp at h
  | call callee args =>
    intro t ht
    simp only [traverseExpr, List.mem_append] at ht
    rcases ht with (h | h) | h
    · exact analyzeExpression_bounded p _ t h
    · exact traverseExpr_bounded p callee t h
    · exact traverseArgList_bounded p args t h
  | arrayLit elements =>
    intro t ht
    simp only [traverseExpr] at ht
    exact traverseElemList_bounded p elements t ht
  | privateName => intro t ht; simp [traverseExpr] at ht
  | stringLit => intro t ht; simp [traverseExpr] at ht
  | numericLit => intro t ht; simp [traverseExpr] at ht
  | booleanLit => intro t ht; simp [traverseExpr] at ht
  | nullLit => intro t ht; simp [traverseExpr] at ht
  | templateLit => intro t ht; simp [traverseExpr] at ht
  | bigintLit => intro t ht; simp [traverseExpr] at ht
  | regexpLit => intro t ht; simp [traverseExpr] at ht
  | objectLit props => intro t ht; simp [traverseExpr] at ht
  | ident name => intro t ht; simp [traverseExpr] at ht
  | conditional a b c => intro t ht; simp [traverseExpr] at ht
  | functionExpr fn => intro t ht; simp [traverseExpr] at ht
  | otherExpr => intro t ht; simp [traverseExpr] at ht

theorem traverseElemList_bounded (p : String) : ∀ (l : List ArrayElem),
    ∀ t ∈ traverseElemList p l, confBounded t := by
  intro l
  cases l with
  | nil => intro t ht; simp [traverseElemList] at ht
  | cons a rest =>
    cases a with
    | elem e =>
      intro t ht
      simp only [traverseElemList, List.mem_append] at ht
      rcases ht with h | h
      · exact traverseExpr_bounded p e t h
      · exact traverseElemList_bounded p rest t h
    | hole =>
      intro t ht
      simp only [traverseElemList] at ht
      exact traverseElemList_bounded p rest t ht
    | spread e =>
      intro t ht
      simp only [traverseElemList] at ht
      exact traverseElemList_bounded p rest t ht

theorem traverseArgList_bounded (p : String) : ∀ (l : List CallArg),
    ∀ t ∈ traverseArgList p l, confBounded t := by
  intro l
  cases l with
  | nil => intro t ht; simp [traverseArgList] at ht
  | cons a rest =>
    cases a with
    | arg e =>
      intro t ht
      simp only [traverseArgList, List.mem_append] at ht
      rcases ht with h | h
      · exact traverseExpr_bounded p e t h
      · exact traverseArgList_bounded p rest t h
    | spreadArg e =>
      intro t ht
      simp only [traverseArgList] at ht
      exact traverseArgList_bounded p rest t ht
    | placeholder =>
      intro t ht
      simp only [traverseArgList] at ht
      exact traverseArgList_bounded p rest t ht
end

theorem traverseDeclList_bounded (p : String) : ∀ (l : List (Option Expr)),
    ∀ t ∈ traverseDeclList p l, confBounded t := by
  intro l
  induction l with
  | nil => intro t ht; simp [traverseDeclList] at ht
  | cons a rest ih =>
    cases a with
    | some init =>
      intro t ht
      simp only [traverseDeclList, List.mem_append] at ht
      rcases ht with (h | h) | h
      · exact analyzeExpression_bounded p _ t h
      · exact traverseExpr_bounded p init t h
      · exact ih t h
    | none =>
      intro t ht
      rw [traverseDeclList] at ht
      exact ih t ht

mutual
theorem traverseStmt_bounded (p : String) : ∀ (s : Stmt),
    ∀ t ∈ traverseStmt p s, confBounded t := by
  intro s
  cases s with
  | blockStmt body =>
    intro t ht
    simp only [traverseStmt] at ht
    exact traverseStmtList_bounded p body t ht
  | exprStmt e =>
    intro t ht
    simp only [traverseStmt, List.mem_append] at ht
    rcases ht with h | h
    · exact analyzeExpression_bounded p _ t h
    · exact traverseExpr_bounded p e t h
  | returnStmt arg =>
    cases arg with
    | some a =>
      intro t ht
      simp only [traverseStmt, List.mem_append] at ht
      rcases ht with h | h
      · exact analyzeExpression_bounded p _ t h
      · exact traverseExpr_bounded p a t h
    | none => intro t ht; simp [traverseStmt] at ht
  | ifStmt test consequent alt =>
    intro t ht
    simp only [traverseStmt, List.mem_append] at ht
    rcases ht with ((h | h) | h) | h
    · exact analyzeExpression_bounded p _ t h
    · exact traverseExpr_bounded p test t h
    · exact traverseStmt_bounded p consequent t h
    · exact traverseStmtOpt_bounded p alt t h
  | varDeclStmt decls =>
    intro t ht
    simp only [traverseStmt] at ht
    exact traverseDeclList_bounded p decls t ht
  | whileStmt c body => intro t ht; simp [traverseStmt] at ht
  | doWhileStmt c body => intro t ht; simp [traverseStmt] at ht
  | forStmt body => intro t ht; simp [traverseStmt] at ht
  | forInStmt body => intro t ht; simp [traverseStmt] at ht
  | forOfStmt body => intro t ht; simp [traverseStmt] at ht
  | switchStmt cases => intro t ht; simp [traverseStmt] at ht
  | tryStmt a b c => intro t ht; simp [traverseStmt] at ht
  | labeledStmt body => intro t ht; simp [traverseStmt] at ht
  | functionDecl fn => intro t ht; simp [traverseStmt] at ht
  | otherStmt => intro t ht; simp [traverseStmt] at ht

theorem traverseStmtOpt_bounded (p : String) : ∀ (o : Option Stmt),
    ∀ t ∈ traverseStmtOpt p o, confBounded t := by
  intro o
  cases o with
  | none => intro t ht; simp [traverseStmtOpt] at ht
  | some s =>
    intro t ht
    rw [traverseStmtOpt] at ht
    exact traverseStmt_bounded p s t ht

theorem traverseStmtList_bounded (p : String) : ∀ (l : List Stmt),
    ∀ t ∈ traverseStmtList p l, confBounded t := by
  intro l
  cases l with
  | nil => intro t ht; simp [traverseStmtList] at ht
  | cons s rest =>
    intro t ht
    simp only [traverseStmtList, List.mem_append] at ht
    rcases ht with h | h
    · exact traverseStmt_bounded p s t h
    · exact traverseStmtList_bounded p rest t h
end

theorem inferParameterTypeFromUsage_bounded (p : String) (fn : FnNode) :
    confBounded (inferParameterTypeFromUsage p fn) := by
  obtain ⟨isArrow, params, body⟩ := fn
  cases body with
  | blockBody stmts =>
    have hall := traverseStmt_bounded p (.blockStmt stmts)
    rw [inferParameterTypeFromUsage]
    cases hl : traverseStmt p (.blockStmt stmts) with
    | nil =>
      simp only [hl]
      norm_num [confBounded, createUnknownType]
    | cons t0 rest =>
      simp only [hl]
      exact foldMerge1_bounded rest t0 (hall t0 (by rw [hl]; simp))
        (fun u hu => hall u (by rw [hl]; simp [hu]))
  | exprBody e =>
    have hall : ∀ t ∈ analyzeExpression p e ++ traverseExpr p e, confBounded t := by
      intro t ht
      rcases List.mem_append.mp ht with h | h
      · exact analyzeExpression_bounded p e t h
      · exact traverseExpr_bounded p e t h
    rw [inferParameterTypeFromUsage]
    cases hl : analyzeExpression p e ++ traverseExpr p e with
    | nil =>
      simp only [hl]
      norm_num [confBounded, createUnknownType]
    | cons t0 rest =>
      simp only [hl]
      exact foldMerge1_bounded rest t0 (hall t0 (by rw [hl]; simp))
        (fun u hu => hall u (by rw [hl]; simp [hu]))

theorem inferParameterType_context (param : Param) (functionNode : FnNode)
    (context : TypeContext) :
    (inferParameterType param functionNode context).2 = context :=
  contextPreserved.2.2.2.2.2.2.2.2.2.2.2.1 param functionNode context

theorem inferParamList_context (params : List Param) (functionNode : FnNode)
    (context : TypeContext) :
    (inferParamList params functionNode context).2 = context :=
  contextPreserved.2.2.2.2.2.2.2.2.2.2.1 params functionNode context

theorem inferMemberExpressionType_bounded_any (obj : Expr) (computed : Bool)
    (property : Expr) (context : TypeContext) :
    confBounded (inferMemberExpressionType obj computed property context).1 := by
  cases hx : inferExpressionType obj context with
  | mk objectType context1 =>
    simp only [inferMemberExpressionType, hx]
    split <;> norm_num [confBounded, createPrimitiveType, createUnknownType]

theorem inferMethodCallType_bounded_any (obj : Expr) (computed : Bool)
    (property : Expr) (args : List CallArg) (context : TypeContext) :
    confBounded (inferMethodCallType obj computed property args context).1 := by
  cases hx : inferExpressionType obj context with
  | mk objectType context1 =>
    simp only [inferMethodCallType, hx]
    split
    · norm_num [confBounded, createUnknownType]
    · cases property <;>
        try norm_num [confBounded, createUnknownType]
      split
      · exact inferArrayMethodReturnType_bounded _ _ _
      · split
        · exact inferStringMethodReturnType_bounded _
        · norm_num [confBounded, createUnknownType]

theorem inferCallExpressionType_bounded_any (callee : Expr) (args : List CallArg)
    (context : TypeContext) :
    confBounded (inferCallExpressionType callee args context).1 := by
  cases callee
  case ident name =>
    simp only [inferCallExpressionType]
    exact inferBuiltInFunctionReturnType_bounded name args context
  case member o c p =>
    simp only [inferCallExpressionType]
    exact inferMethodCallType_bounded_any o c p args context
  all_goals simp only [inferCallExpressionType]
  all_goals norm_num [confBounded, createUnknownType]

theorem inferBinaryExpressionType_bounded_any (op : String) (left right : Expr)
    (context : TypeContext) :
    confBounded (inferBinaryExpressionType op left right context).1 := by
  cases hx1 : inferExpressionType left context with
  | mk t1 c1 =>
    cases hx2 : inferExpressionType right c1 with
    | mk t2 c2 =>
      simp only [inferBinaryExpressionType, hx1, hx2]
      repeat' split
      all_goals norm_num [confBounded, createPrimitiveType, createUnknownType]

set_option maxHeartbeats 2000000 in
theorem confidenceBounded :
    (∀ (node : Expr) (context : TypeContext), ScopeBounded context →
      confBounded (inferExpressionType node context).1) ∧
    (∀ (obj : Expr) (computed : Bool) (property : Expr) (context : TypeContext),
      ScopeBounded context →
      confBounded (inferMemberExpressionType obj computed property context).1) ∧
    (∀ (callee : Expr) (args : List CallArg) (context : TypeContext),
      ScopeBounded context →
      confBounded (inferCallExpressionType callee args context).1) ∧
    (∀ (obj : Expr) (computed : Bool) (property : Expr) (args : List CallArg)
      (context : TypeContext), ScopeBounded context →
      confBounded (inferMethodCallType obj computed property args context).1) ∧
    (∀ (consequent alternate : Expr) (context : TypeContext), ScopeBounded context →
      confBounded (inferConditionalExpressionType consequent alternate context).1) ∧
    (∀ (op : String) (left right : Expr) (context : TypeContext), ScopeBounded context →
      confBounded (inferLogicalExpressionType op left right context).1) ∧
    (∀ (op : String) (left right : Expr) (context : TypeContext), ScopeBounded context →
      confBounded (inferBinaryExpressionType op left right context).1) ∧
    (∀ (props : List ObjectMember) (context : TypeContext), ScopeBounded context →
      confBounded (inferObjectShape props context).1) ∧
    (∀ (props : List ObjectMember) (context : TypeContext), ScopeBounded context →
      procBounded (processObjectMembers props context).1) ∧
    (∀ (node : FnNode) (context : TypeContext), ScopeBounded context →
      ∀ t ∈ (inferParameterTypes node context).1, confBounded t) ∧
    (∀ (params : List Param) (functionNode : FnNode) (context : TypeContext),
      ScopeBounded context →
      ∀ t ∈ (inferParamList params functionNode context).1, confBounded t) ∧
    (∀ (param : Param) (functionNode : FnNode) (context : TypeContext),
      ScopeBounded context →
      confBounded (inferParameterType param functionNode context).1) ∧
    (∀ (node : FnNode) (context : TypeContext), ScopeBounded context →
      confBounded (inferFunctionReturnType node context).1) ∧
    (∀ (returnStatements : List (Option Expr)) (context : TypeContext),
      ScopeBounded context →
      ∀ t ∈ (inferReturnTypes returnStatements context).1, confBounded t) ∧
    (∀ (e : Expr) (context : TypeContext), ScopeBounded context →
      confBounded (inferPropertyExprValue e context).1) ∧
    (∀ (elements : List ArrayElem) (context : TypeContext), ScopeBounded context →
      confBounded (inferArrayType elements context).1) ∧
    (∀ (elements : List ArrayElem) (context : TypeContext), ScopeBounded context →
      ∀ t ∈ (inferArrayElements elements context).1, confBounded t) := by
  apply inferExpressionType.mutual_induct
  case case1 =>
    intros; norm_num [inferExpressionType, confBounded, createUnknownType, createPrimitiveType]
  case case2 =>
    intros; norm_num [inferExpressionType, confBounded, createUnknownType, createPrimitiveType]
  case case3 =>
    intros; norm_num [inferExpressionType, confBounded, createUnknownType, createPrimitiveType]
  case case4 =>
    intros; norm_num [inferExpressionType, confBounded, createUnknownType, createPrimitiveType]
  case case5 =>
    intros; norm_num [inferExpressionType, confBounded, createUnknownType, createPrimitiveType]
  case case6 =>
    intros; norm_num [inferExpressionType, confBounded, createUnknownType, createPrimitiveType]
  case case7 =>
    intros; norm_num [inferExpressionType, confBounded, createUnknownType, createPrimitiveType]
  case case8 =>
    intros; norm_num [inferExpressionType, confBounded, createUnknownType, createPrimitiveType]
  case case9 =>
    intro context elements ih hs
    rw [inferExpressionType]
    exact ih hs
  case case10 =>
    intro context props ih hs
    rw [inferExpressionType]
    exact ih hs
  case case11 =>
    intro context name hs
    rw [inferExpressionType]
    exact inferIdentifierType_bounded name context hs
  case case12 =>
    intro context op arg hs
    rw [inferExpressionType]
    exact inferUnaryExpressionType_bounded op context
  case case13 =>
    intro context op left right ih hs
    rw [inferExpressionType]
    exact ih hs
  case case14 =>
    intro context op left right ih hs
    rw [inferExpressionType]
    exact ih hs
  case case15 =>
    intro context a consequent alternate ih hs
    rw [inferExpressionType]
    exact ih hs
  case case16 =>
    intro context callee args ih hs
    rw [inferExpressionType]
    exact ih hs
  case case17 =>
    intro context obj computed property ih hs
    rw [inferExpressionType]
    exact ih hs
  case case18 =>
    intros; norm_num [inferExpressionType, confBounded, createUnknownType, createPrimitiveType]
  case case19 =>
    intros; norm_num [inferExpressionType, confBounded, createUnknownType, createPrimitiveType]
  case case20 =>
    intro obj computed property context
    intros
    exact inferMemberExpressionType_bounded_any obj computed property context
  case case21 =>
    intro obj computed property context
    intros
    exact inferMemberExpressionType_bounded_any obj computed property context
  case case22 =>
    intro args context name
    intros
    exact inferCallExpressionType_bounded_any (.ident name) args context
  case case23 =>
    intro args context obj computed property
    intros
    exact inferCallExpressionType_bounded_any (.member obj computed property) args context
  case case24 =>
    intro callee args context
    intros
    exact inferCallExpressionType_bounded_any callee args context
  case case25 =>
    intro obj computed property args context
    intros
    exact inferMethodCallType_bounded_any obj computed property args context
  case case26 =>
    intro obj computed args context elementType context1 hx n
    intros
    exact inferMethodCallType_bounded_any obj computed (.ident n) args context
  case case27 =>
    intro obj computed args context elementType context1 hx n
    intros
    exact inferMethodCallType_bounded_any obj computed (.ident n) args context
  case case28 =>
    intro obj computed args context elementType context1 hx n
    intros
    exact inferMethodCallType_bounded_any obj computed (.ident n) args context
  case case29 =>
    intro obj computed property args context
    intros
    exact inferMethodCallType_bounded_any obj computed property args context
  case case30 =>
    intro consequent alternate context t1 c1 hx1 t2 c2 hx2 ih2 ih1 hs
    have hc1 : c1 = context := by
      have h := inferExpressionType_context consequent context
      rw [hx1] at h
      exact h
    have hb1 : confBounded t1 := by
      have h := ih2 hs
      rw [hx1] at h
      exact h
    have hb2 : confBounded t2 := by
      have h := ih1 (by rw [hc1]; exact hs)
      rw [hx2] at h
      exact h
    simp only [inferConditionalExpressionType, hx1, hx2]
    exact mergeTypes_bounded hb1 hb2
  case case31 =>
    intro op left right context t1 c1 hx1 t2 c2 hx2 hcond ih2 ih1 hs
    have hc1 : c1 = context := by
      have h := inferExpressionType_context left context
      rw [hx1] at h
      exact h
    have hb1 : confBounded t1 := by
      have h := ih2 hs
      rw [hx1] at h
      exact h
    have hb2 : confBounded t2 := by
      have h := ih1 (by rw [hc1]; exact hs)
      rw [hx2] at h
      exact h
    simp only [inferLogicalExpressionType, hx1, hx2]
    repeat' split
    all_goals first
      | exact hb2
      | exact mergeTypes_bounded hb1 hb2
      | norm_num [confBounded, createUnknownType]
  case case32 =>
    intro op left right context t1 c1 hx1 t2 c2 hx2 hc1cond hc2cond ih2 ih1 hs
    have hc1 : c1 = context := by
      have h := inferExpressionType_context left context
      rw [hx1] at h
      exact h
    have hb1 : confBounded t1 := by
      have h := ih2 hs
      rw [hx1] at h
      exact h
    have hb2 : confBounded t2 := by
      have h := ih1 (by rw [hc1]; exact hs)
      rw [hx2] at h
      exact h
    simp only [inferLogicalExpressionType, hx1, hx2]
    repeat' split
    all_goals first
      | exact hb2
      | exact mergeTypes_bounded hb1 hb2
      | norm_num [confBounded, createUnknownType]
  case case33 =>
    intro op left right context t1 c1 hx1 t2 c2 hx2 hc1cond hc2cond ih2 ih1 hs
    have hc1 : c1 = context := by
      have h := inferExpressionType_context left context
      rw [hx1] at h
      exact h
    have hb1 : confBounded t1 := by
      have h := ih2 hs
      rw [hx1] at h
      exact h
    have hb2 : confBounded t2 := by
      have h := ih1 (by rw [hc1]; exact hs)
      rw [hx2] at h
      exact h
    simp only [inferLogicalExpressionType, hx1, hx2]
    repeat' split
    all_goals first
      | exact hb2
      | exact mergeTypes_bounded hb1 hb2
      | norm_num [confBounded, createUnknownType]
  case case34 =>
    intro op left right context
    intros
    exact inferBinaryExpressionType_bounded_any op left right context
  case case35 =>
    intro op left right context
    intros
    exact inferBinaryExpressionType_bounded_any op left right context
  case case36 =>
    intro op left right context
    intros
    exact inferBinaryExpressionType_bounded_any op left right context
  case case37 =>
    intro op left right context
    intros
    exact inferBinaryExpressionType_bounded_any op left right context
  case case38 =>
    intro op left right context
    intros
    exact inferBinaryExpressionType_bounded_any op left right context
  case case39 =>
    intro op left right context
    intros
    exact inferBinaryExpressionType_bounded_any op left right context
  case case40 =>
    intro props context hlen hs
    simp only [inferObjectShape, hlen]
    norm_num [confBounded, createObjectType]
  case case41 =>
    intro props context hlen abortType c1 hproc ih hs
    have h := ih hs
    rw [hproc] at h
    rw [inferObjectShape, if_neg hlen, hproc]
    exact h
  case case42 =>
    intro props context hlen infos total count c1 hproc shi hcond ih hs
    have hctx : c1 = context := by
      have h := processObjectMembers_context props context
      rw [hproc] at h
      exact h
    subst hctx
    have hne : props ≠ [] := fun habs => hlen (by simp [habs])
    have h := ih hs
    rw [hproc] at h
    obtain ⟨hinfos, h0, h1⟩ := h
    rw [inferObjectShape_inr c1 props infos total count hne hproc]
    have havg : 0 ≤ (if count > 0 then total / (count : Rat) else 0.5) ∧
        (if count > 0 then total / (count : Rat) else 0.5) ≤ 1 := by
      split
      · rename_i hcpos
        have hcr : (0 : Rat) < (count : Rat) := by exact_mod_cast hcpos
        exact ⟨div_nonneg h0 (le_of_lt hcr), (div_le_one hcr).mpr h1⟩
      · norm_num
    split <;> exact ⟨havg.1, havg.2⟩
  case case43 =>
    intro props context hlen infos total count c1 hproc shi hcond ih hs
    have hctx : c1 = context := by
      have h := processObjectMembers_context props context
      rw [hproc] at h
      exact h
    subst hctx
    have hne : props ≠ [] := fun habs => hlen (by simp [habs])
    have h := ih hs
    rw [hproc] at h
    obtain ⟨hinfos, h0, h1⟩ := h
    rw [inferObjectShape_inr c1 props infos total count hne hproc]
    have havg : 0 ≤ (if count > 0 then total / (count : Rat) else 0.5) ∧
        (if count > 0 then total / (count : Rat) else 0.5) ≤ 1 := by
      split
      · rename_i hcpos
        have hcr : (0 : Rat) < (count : Rat) := by exact_mod_cast hcpos
        exact ⟨div_nonneg h0 (le_of_lt hcr), (div_le_one hcr).mpr h1⟩
      · norm_num
    split <;> exact ⟨havg.1, havg.2⟩
  case case44 =>
    intro context hs
    norm_num [processObjectMembers, procBounded]
  case case45 =>
    intro context e tail hs
    norm_num [processObjectMembers, procBounded, confBounded, createObjectType]
  case case46 =>
    intro context computed key e rest hk hs
    simp only [processObjectMembers, hk]
    norm_num [procBounded, confBounded, createObjectType]
  case case47 =>
    intro context computed key e rest propertyName hk t1 c1 hx1 abortType c2 hx2 ih2 ih1 hs
    have hc1 : c1 = context := by
      have h := inferPropertyExprValue_context e context
      rw [hx1] at h
      exact h
    have h := ih1 (by rw [hc1]; exact hs)
    rw [hx2] at h
    simp only [processObjectMembers, hk, hx1, hx2]
    exact h
  case case48 =>
    intro context computed key e rest propertyName hk ptype c1 hx1 infos total count c2 hx2
      ih2 ih1 hs
    have hc1 : c1 = context := by
      have h := inferPropertyExprValue_context e context
      rw [hx1] at h
      exact h
    have hpb : confBounded ptype := by
      have h := ih2 hs
      rw [hx1] at h
      exact h
    have h := ih1 (by rw [hc1]; exact hs)
    rw [hx2] at h
    obtain ⟨hinfos, h0, h1⟩ := h
    simp only [processObjectMembers, hk, hx1, hx2]
    refine ⟨?_, ?_, ?_⟩
    · intro p hp
      rcases List.mem_cons.mp hp with rfl | hp2
      · exact hpb
      · exact hinfos p hp2
    · have := hpb.1
      linarith
    · push_cast
      have := hpb.2
      linarith
  case case49 =>
    intro context computed key rest hk hs
    simp only [processObjectMembers, hk]
    norm_num [procBounded, confBounded, createObjectType]
  case case50 =>
    intro context computed key rest propertyName hk abortType c1 hx ih hs
    have h := ih hs
    rw [hx] at h
    simp only [processObjectMembers, hk, hx]
    exact h
  case case51 =>
    intro context computed key rest propertyName hk infos total count c1 hx ih hs
    have h := ih hs
    rw [hx] at h
    obtain ⟨hinfos, h0, h1⟩ := h
    simp only [processObjectMembers, hk, hx]
    refine ⟨?_, ?_, ?_⟩
    · intro p hp
      rcases List.mem_cons.mp hp with rfl | hp2
      · norm_num [confBounded, createUnknownType]
      · exact hinfos p hp2
    · simp only [createUnknownType]
      linarith
    · simp only [createUnknownType]
      push_cast
      linarith
  case case52 =>
    intro context computed key fn rest hk hs
    simp only [processObjectMembers, hk]
    norm_num [procBounded, confBounded, createObjectType]
  case case53 =>
    intro context computed key fn rest propertyName hk rt c1 hx1 pts c2 hx2 abortType c3 hx3
      ih3 ih2 ih1 hs
    have hc1 : c1 = context := by
      have h := inferFunctionReturnType_context fn context
      rw [hx1] at h
      exact h
    have hc2 : c2 = c1 := by
      have h := inferParameterTypes_context fn c1
      rw [hx2] at h
      exact h
    have h := ih1 (by rw [hc2, hc1]; exact hs)
    rw [hx3] at h
    simp only [processObjectMembers, hk, hx1, hx2, hx3]
    exact h
  case case54 =>
    intro context computed key fn rest propertyName hk rt c1 hx1 pts c2 hx2 infos total count
      c3 hx3 ih3 ih2 ih1 hs
    have hc1 : c1 = context := by
      have h := inferFunctionReturnType_context fn context
      rw [hx1] at h
      exact h
    have hc2 : c2 = c1 := by
      have h := inferParameterTypes_context fn c1
      rw [hx2] at h
      exact h
    have hrb : confBounded rt := by
      have h := ih3 hs
      rw [hx1] at h
      exact h
    have h := ih1 (by rw [hc2, hc1]; exact hs)
    rw [hx3] at h
    obtain ⟨hinfos, h0, h1⟩ := h
    simp only [processObjectMembers, hk, hx1, hx2, hx3]
    refine ⟨?_, ?_, ?_⟩
    · intro p hp
      rcases List.mem_cons.mp hp with rfl | hp2
      · exact hrb
      · exact hinfos p hp2
    · simp only [createFunctionType]
      have := hrb.1
      linarith
    · simp only [createFunctionType]
      push_cast
      have := hrb.2
      linarith
  case case55 =>
    intro context isArrow params body ih hs t htm
    rw [inferParameterTypes] at htm
    exact ih hs t htm
  case case56 =>
    intro fn context hs t htm
    simp [inferParamList] at htm
  case case57 =>
    intro fn context p rest pt c1 hx1 rts c2 hx2 ih2 ih1 hs t htm
    have hc1 : c1 = context := by
      have h := inferParameterType_context p fn context
      rw [hx1] at h
      exact h
    simp only [inferParamList, hx1, hx2] at htm
    rcases List.mem_cons.mp htm with rfl | hmem
    · have h := ih2 hs
      rw [hx1] at h
      exact h
    · have h := ih1 (by rw [hc1]; exact hs)
      rw [hx2] at h
      exact h t hmem
  case case58 =>
    intro fn context argument et c1 hx ih hs
    have h := ih hs
    rw [hx] at h
    simp only [inferParameterType, hx]
    constructor
    · simp only [createArrayType]
      have := h.1
      linarith
    · simp only [createArrayType]
      have h2 := h.2
      have h1 := h.1
      linarith
  case case59 =>
    intro fn context right ih hs
    rw [inferParameterType]
    exact ih hs
  case case60 =>
    intro fn context hs
    norm_num [inferParameterType, confBounded, createArrayType]
  case case61 =>
    intro fn context hs
    norm_num [inferParameterType, confBounded, createPrimitiveType]
  case case62 =>
    intro fn context name hs
    rw [inferParameterType]
    exact inferParameterTypeFromUsage_bounded name fn
  case case63 =>
    intro fn context hs
    norm_num [inferParameterType, confBounded, createUnknownType]
  case case64 =>
    intro context params e ih hs
    rw [inferFunctionReturnType]
    exact ih hs
  case case65 =>
    intro context params e hs
    norm_num [inferFunctionReturnType, confBounded, createPrimitiveType]
  case case66 =>
    intro context isArrow params stmts hlen hs
    simp only [inferFunctionReturnType, hlen]
    norm_num [confBounded, createPrimitiveType]
  case case67 =>
    intro context isArrow params stmts hlen rts c2 hx hall ih hs
    simp only [inferFunctionReturnType]
    rw [if_neg hlen]
    simp only [hx]
    rw [if_pos hall]
    norm_num [confBounded, createPrimitiveType]
  case case68 =>
    intro context isArrow params stmts hlen c2 hx hall ih hs
    exact absurd rfl hall
  case case69 =>
    intro context isArrow params stmts hlen c2 t0 rest hx hall ih hs
    have hallb : ∀ t ∈ t0 :: rest, confBounded t := by
      have h := ih hs
      rw [hx] at h
      exact h
    have h0 := hallb t0 (by simp)
    have hrest : ∀ t ∈ rest, confBounded t := fun t htm => hallb t (by simp [htm])
    have hmin := foldMin1_bounded (rest.map fun t => t.confidence) t0.confidence h0.1 h0.2
      (by
        intro c hc
        obtain ⟨u, hu, rfl⟩ := List.mem_map.mp hc
        exact ⟨(hrest u hu).1, (hrest u hu).2⟩)
    have hmerge := foldMerge1_bounded rest t0 h0 hrest
    simp only [inferFunctionReturnType]
    rw [if_neg hlen]
    simp only [hx]
    rw [if_neg hall]
    constructor
    · split
      · exact hmin.1
      · have := hmerge.1
        linarith
    · split
      · exact hmin.2
      · have h1 := hmerge.2
        have h2 := hmerge.1
        linarith
  case case70 =>
    intro context hs t htm
    simp [inferReturnTypes] at htm
  case case71 =>
    intro context init rest et c1 hx1 rts c2 hx2 ih2 ih1 hs t htm
    have hc1 : c1 = context := by
      have h := inferExpressionType_context init context
      rw [hx1] at h
      exact h
    simp only [inferReturnTypes, hx1, hx2] at htm
    rcases List.mem_cons.mp htm with rfl | hmem
    · have h := ih2 hs
      rw [hx1] at h
      exact h
    · have h := ih1 (by rw [hc1]; exact hs)
      rw [hx2] at h
      exact h t hmem
  case case72 =>
    intro context rest rts c2 hx ih hs t htm
    simp only [inferReturnTypes, hx] at htm
    rcases List.mem_cons.mp htm with rfl | hmem
    · norm_num [confBounded, createPrimitiveType]
    · have h := ih hs
      rw [hx] at h
      exact h t hmem
  case case73 =>
    intro e context ps hobj ih hs
    simp only [inferPropertyExprValue]
    split
    · rename_i ps2 hobj2
      rw [hobj] at hobj2
      rw [Option.some.injEq] at hobj2
      subst hobj2
      exact ih hs
    · rename_i hobj2
      rw [hobj] at hobj2
      simp at hobj2
  case case74 =>
    intro e context hobj ih hs
    simp only [inferPropertyExprValue]
    split
    · rename_i ps2 hobj2
      rw [hobj] at hobj2
      simp at hobj2
    · rename_i hobj2
      exact ih hs
  case case75 =>
    intro elements context hlen hs
    simp only [inferArrayType, hlen]
    norm_num [confBounded, createArrayType]
  case case76 =>
    intro elements context hlen c1 hx ih hs
    simp only [inferArrayType]
    rw [if_neg hlen]
    simp only [hx]
    norm_num [confBounded, createArrayType]
  case case77 =>
    intro elements context hlen t0 rest c1 hx ih hs
    have hallb : ∀ t ∈ t0 :: rest, confBounded t := by
      have h := ih hs
      rw [hx] at h
      exact h
    have h0 := hallb t0 (by simp)
    have hrest : ∀ t ∈ rest, confBounded t := fun t htm => hallb t (by simp [htm])
    have hmerge := foldMerge1_bounded rest t0 h0 hrest
    simp only [inferArrayType]
    rw [if_neg hlen]
    simp only [hx]
    constructor
    · split
      · norm_num [createArrayType]
      · simp only [createArrayType]
        have := hmerge.1
        linarith
    · split
      · norm_num [createArrayType]
      · simp only [createArrayType]
        have h1 := hmerge.2
        have h2 := hmerge.1
        linarith
  case case78 =>
    intro context hs t htm
    simp [inferArrayElements] at htm
  case case79 =>
    intro context rest ih hs t htm
    simp only [inferArrayElements] at htm
    exact ih hs t htm
  case case80 =>
    intro context e rest ih hs t htm
    simp only [inferArrayElements] at htm
    exact ih hs t htm
  case case81 =>
    intro context e rest et c1 hx1 rts c2 hx2 ih2 ih1 hs t htm
    have hc1 : c1 = context := by
      have h := inferExpressionType_context e context
      rw [hx1] at h
      exact h
    simp only [inferArrayElements, hx1, hx2] at htm
    rcases List.mem_cons.mp htm with rfl | hmem
    · have h := ih2 hs
      rw [hx1] at h
      exact h
    · have h := ih1 (by rw [hc1]; exact hs)
      rw [hx2] at h
      exact h t hmem

/-- C10: if every type recorded in `context.scope` has its confidence in the
closed interval `[0, 1]`, then so do the type returned by
`inferVariableType`, the type returned by `inferExpressionType`, every
element of the list returned by `inferParameterTypes`, and the result of
`inferFunctionReturnType`: every operation of the engine (the constructors,
the pairwise averaging in `mergeTypes`, the `0.9` / `0.85` scalings, the
per-property averaging and the minimum rule) preserves the bound. -/
theorem confidence_in_unit_interval :
    ∀ (context : TypeContext),
      (∀ p ∈ context.scope, 0 ≤ p.2.confidence ∧ p.2.confidence ≤ 1) →
      (∀ node : Option Expr,
        0 ≤ (inferVariableType node context).1.confidence ∧
        (inferVariableType node context).1.confidence ≤ 1) ∧
      (∀ node : Expr,
        0 ≤ (inferExpressionType node context).1.confidence ∧
        (inferExpressionType node context).1.confidence ≤ 1) ∧
      (∀ node : FnNode, ∀ t ∈ (inferParameterTypes node context).1,
        0 ≤ t.confidence ∧ t.confidence ≤ 1) ∧
      (∀ node : FnNode,
        0 ≤ (inferFunctionReturnType node context).1.confidence ∧
        (inferFunctionReturnType node context).1.confidence ≤ 1) := by
  intro context hs
  have hsb : ScopeBounded context := hs
  refine ⟨?_, fun node => confidenceBounded.1 node context hsb,
    fun node => confidenceBounded.2.2.2.2.2.2.2.2.2.1 node context hsb,
    fun node => confidenceBounded.2.2.2.2.2.2.2.2.2.2.2.2.1 node context hsb⟩
  intro node
  cases node with
  | none => norm_num [inferVariableType, confBounded, createUnknownType]
  | some init => exact confidenceBounded.1 init context hsb

/-- Witness for C10 at a concrete one-entry scope. -/
theorem confidence_in_unit_interval_witness :
    (∀ p ∈ (TypeContext.mk [("x", createPrimitiveType "number" 1.0)] [] []).scope,
        0 ≤ p.2.confidence ∧ p.2.confidence ≤ 1) ∧
    0 ≤ (inferExpressionType (.ident "x")
        (TypeContext.mk [("x", createPrimitiveType "number" 1.0)] [] [])).1.confidence ∧
    (inferExpressionType (.ident "x")
        (TypeContext.mk [("x", createPrimitiveType "number" 1.0)] [] [])).1.confidence ≤ 1 := by
  have hscope : ∀ p ∈ (TypeContext.mk [("x", createPrimitiveType "number" 1.0)] [] []).scope,
      0 ≤ p.2.confidence ∧ p.2.confidence ≤ 1 := by
    intro p hp
    simp only [List.mem_singleton] at hp
    subst hp
    norm_num [createPrimitiveType]
  exact ⟨hscope, ((confidence_in_unit_interval _ hscope).2.1 (.ident "x")).1,
    ((confidence_in_unit_interval _ hscope).2.1 (.ident "x")).2⟩
